import Mathlib

/-!
Verification of the MeowKernel resource-management core (shallow embedding).

The definitions below are translated from the C sources of the repository:
  - advanced/mm/meow_heap_allocator.c / .h   (heap allocator)
  - advanced/mm/meow_physical_memory.c / .h  (territory/page allocator)
  - advanced/process/meow_task.c / .h        (task model)
  - advanced/process/meow_scheduler.c        (scheduler)
  - advanced/syscalls/meow_syscall_table.c   (syscall dispatch)

Machine integers are modelled as Nat (with explicit `% 2 ^ 32` where the C
arithmetic can wrap); error codes (`meow_error_t`, a 32-bit signed int) are
modelled as Int.  Pointers are modelled as Nat addresses; NULL is 0.
-/

namespace Meow

/-! ### Error codes (kernel/meow_error_definitions.h, advanced/mm/meow_memory_manager.h) -/

def MEOW_SUCCESS : Int := 0
def MEOW_ERROR_NULL_POINTER : Int := -10
def MEOW_ERROR_INVALID_PARAMETER : Int := -11
def MEOW_ERROR_NOT_INITIALIZED : Int := -31
def MEOW_ERROR_ALREADY_INITIALIZED : Int := -32
def MEOW_ERROR_NOT_SUPPORTED : Int := -41
def MEOW_ERROR_INITIALIZATION_FAILED : Int := -33

/- `mm_error_t` is a separate C enum (values 0..7).  `meow_heap_free` returns
   these enum values through a `meow_error_t` return type, so they appear as
   the plain integers 3 and 5. -/
def MM_ERROR_INVALID_ADDRESS : Int := 3
def MM_ERROR_HEAP_CORRUPTION : Int := 5

def UINT32_MOD : Nat := 4294967296
def SIZE_MAX : Nat := 4294967295

/-! ### Heap allocator constants (meow_heap_allocator.h) -/

def MEOW_HEAP_SIZE_BYTES : Nat := 1048576          -- 1 MB
def MEOW_HEAP_START : Nat := 2097152               -- 0x200000
def MEOW_HEAP_END : Nat := MEOW_HEAP_START + MEOW_HEAP_SIZE_BYTES
def MEOW_HEAP_MIN_BLOCK_SIZE : Nat := 16
def MEOW_HEAP_ALIGNMENT : Nat := 4
def MEOW_HEAP_MAX_ALLOC_SIZE : Nat := MEOW_HEAP_SIZE_BYTES / 2
def MEOW_HEAP_MAGIC_VALUE : Nat := 51966           -- 0xCAFE
def MEOW_HEAP_GUARD_PATTERN : Nat := 3735928559    -- 0xDEADBEEF

/- sizeof(cat_memory_block_t): uint32 + uint8 + uint8 + uint16 + 32-bit pointer
   + uint32 = 16 bytes on the 32-bit x86 target. -/
def HEADER_SIZE : Nat := 16

/- MEOW_HEAP_ALIGN(size) = (size + 3) & ~3; for the in-range sizes the
   allocator feeds it (size <= MEOW_HEAP_MAX_ALLOC_SIZE) this cannot wrap. -/
def meowHeapAlign (size : Nat) : Nat := (size + (MEOW_HEAP_ALIGNMENT - 1)) / 4 * 4

/-! ### Heap state

One `HeapBlock` is one `cat_memory_block_t` header in the `next_bed` chain
starting at `first_cat_bed`; `addr` is the address of the header itself.
The `flags` byte always tracks `occupied` (FREE = 0x00 / OCCUPIED = 0x01) on
every code path, so only `occupied` is kept.  Statistics counters
(`heap_used_size`, `heap_stats`, ...) are not consulted by any allocator
decision and are omitted; the block payload bytes are not modelled. -/

structure HeapBlock where
  addr : Nat
  size : Nat
  occupied : Bool
  magic : Nat
  guard_front : Nat
  deriving DecidableEq

structure HeapState where
  blocks : List HeapBlock      -- the next_bed chain from first_cat_bed (NULL -> [])
  initialized : Bool           -- heap_initialized
  deriving DecidableEq

def heapInitial : HeapState := { blocks := [], initialized := false }

/-- The single giant free block installed by `meow_heap_init`. -/
def initialBlock : HeapBlock :=
  { addr := MEOW_HEAP_START
  , size := MEOW_HEAP_SIZE_BYTES - HEADER_SIZE
  , occupied := false
  , magic := MEOW_HEAP_MAGIC_VALUE
  , guard_front := MEOW_HEAP_GUARD_PATTERN }

/-- `meow_heap_init` (meow_heap_allocator.c:40-80). -/
def meow_heap_init (s : HeapState) : HeapState × Int :=
  if s.initialized then (s, MEOW_ERROR_ALREADY_INITIALIZED)
  else ({ blocks := [initialBlock], initialized := true }, MEOW_SUCCESS)

/-- The while loop of `merge_free_blocks_internal`
(meow_heap_allocator.c:495-512) with `current` as the explicit first
argument: when `current` and `current->next_bed` are both free and
physically adjacent they are merged and the loop `continue`s with the same
(grown) `current`, otherwise `current` advances to the next block. -/
def mergeFrom (b : HeapBlock) : List HeapBlock → List HeapBlock
  | [] => [b]
  | c :: rest =>
    if b.occupied = false ∧ c.occupied = false ∧
        b.addr + HEADER_SIZE + b.size = c.addr then
      mergeFrom { b with size := b.size + c.size + HEADER_SIZE } rest
    else
      b :: mergeFrom c rest

/-- `merge_free_blocks_internal` (meow_heap_allocator.c:487-517) on the
whole chain, starting from `first_cat_bed`. -/
def mergeBlocks : List HeapBlock → List HeapBlock
  | [] => []
  | b :: rest => mergeFrom b rest

/-- `merge_free_blocks_internal` including its initialization guard. -/
def merge_free_blocks_internal (s : HeapState) : HeapState :=
  if s.initialized = false then s else { s with blocks := mergeBlocks s.blocks }

/-- Result of the find-free-block / split phase of `meow_heap_alloc`. -/
inductive AllocScanResult where
  | noBlock                                        -- find_free_block_internal returned NULL
  | splitOverflow                                  -- the split address validation failed
  | ok (blocks : List HeapBlock) (userPtr : Nat)   -- updated chain and returned pointer
  deriving DecidableEq

/-- The new free block carved out of the tail of `b` when `meow_heap_alloc`
splits it (meow_heap_allocator.c:158-165); the address computation is 32-bit
`uintptr_t` arithmetic. -/
def splitRemainder (b : HeapBlock) (size : Nat) : HeapBlock :=
  { addr := (b.addr + HEADER_SIZE + size) % UINT32_MOD
  , size := b.size - size - HEADER_SIZE
  , occupied := false
  , magic := MEOW_HEAP_MAGIC_VALUE
  , guard_front := MEOW_HEAP_GUARD_PATTERN }

/-- `find_free_block_internal` (first fit) combined with the split-and-mark
body of `meow_heap_alloc` (meow_heap_allocator.c:140-195).  `size` is already
aligned and clamped to the minimum block size. -/
def allocScan (size : Nat) : List HeapBlock → AllocScanResult
  | [] => .noBlock
  | b :: rest =>
    if b.occupied = false ∧ size ≤ b.size then
      if b.size > size + HEADER_SIZE + MEOW_HEAP_MIN_BLOCK_SIZE then
        -- split: the tail becomes a new free block, after validating that
        -- the new header address stays inside the heap and did not wrap
        if (b.addr + HEADER_SIZE + size) % UINT32_MOD ≥ MEOW_HEAP_END ∨
            (b.addr + HEADER_SIZE + size) % UINT32_MOD < b.addr then .splitOverflow
        else
          .ok ({ b with size := size, occupied := true } :: splitRemainder b size :: rest)
             (b.addr + HEADER_SIZE)
      else
        .ok ({ b with occupied := true } :: rest) (b.addr + HEADER_SIZE)
    else
      match allocScan size rest with
      | .ok l p => .ok (b :: l) p
      | r => r

/-- The auto-initialization step of `meow_heap_alloc`
(meow_heap_allocator.c:124-131): from an uninitialized state `meow_heap_init`
always returns MEOW_SUCCESS, so the failure branch there is dead. -/
def heapAutoInit (s : HeapState) : HeapState :=
  if s.initialized = false then (meow_heap_init s).1 else s

/-- `meow_heap_alloc` (meow_heap_allocator.c:116-196).  Returns the new heap
state and the user pointer (`none` = NULL). -/
def meow_heap_alloc (s : HeapState) (size : Nat) : HeapState × Option Nat :=
  if size = 0 ∨ size > MEOW_HEAP_MAX_ALLOC_SIZE then (s, none)
  else
    -- the request is aligned and clamped to the minimum block size, then a
    -- first-fit scan runs over the (auto-initialized) chain
    match allocScan (max (meowHeapAlign size) MEOW_HEAP_MIN_BLOCK_SIZE)
        (heapAutoInit s).blocks with
    | .noBlock => (heapAutoInit s, none)
    | .splitOverflow => (heapAutoInit s, none)
    | .ok l p => ({ heapAutoInit s with blocks := l }, some p)

/-- Result of locating the header at `ptr - sizeof(header)` in the chain. -/
inductive FreeScanResult where
  | notFound                     -- no header in the chain at that address
  | corrupted                    -- header found but already free or bad magic
  | ok (blocks : List HeapBlock)
  deriving DecidableEq

/-- The header lookup and occupied/magic validation of `meow_heap_free`
(meow_heap_allocator.c:220-231).  The C code casts `ptr - 16` to a header
unconditionally; when that address is not a block header of the chain it
reads payload bytes, which in a well-formed heap do not pass the
occupied-and-magic check, so `notFound` is reported as corruption below. -/
def freeScan (a : Nat) : List HeapBlock → FreeScanResult
  | [] => .notFound
  | b :: rest =>
    if b.addr = a then
      if b.occupied = true ∧ b.magic = MEOW_HEAP_MAGIC_VALUE then
        .ok ({ b with occupied := false } :: rest)
      else .corrupted
    else
      match freeScan a rest with
      | .ok l => .ok (b :: l)
      | r => r

/-- `meow_heap_free` (meow_heap_allocator.c:201-248). -/
def meow_heap_free (s : HeapState) (ptr : Nat) : HeapState × Int :=
  if ptr = 0 then (s, MEOW_SUCCESS)
  else if s.initialized = false then (s, MEOW_ERROR_NOT_INITIALIZED)
  else if ptr < MEOW_HEAP_START + HEADER_SIZE ∨ ptr ≥ MEOW_HEAP_END then
    (s, MM_ERROR_INVALID_ADDRESS)
  else
    match freeScan (ptr - HEADER_SIZE) s.blocks with
    | .notFound => (s, MM_ERROR_HEAP_CORRUPTION)
    | .corrupted => (s, MM_ERROR_HEAP_CORRUPTION)
    | .ok l => ({ s with blocks := mergeBlocks l }, MEOW_SUCCESS)

/-- `meow_heap_realloc` (meow_heap_allocator.c:253-297).  The payload copy
(`meow_memcpy`) moves bytes that are not modelled. -/
def meow_heap_realloc (s : HeapState) (ptr : Nat) (newSize : Nat) :
    HeapState × Option Nat :=
  if ptr = 0 then meow_heap_alloc s newSize
  else if newSize = 0 then ((meow_heap_free s ptr).1, none)
  else if newSize > MEOW_HEAP_MAX_ALLOC_SIZE then (s, none)
  else if ptr < MEOW_HEAP_START + HEADER_SIZE ∨ ptr ≥ MEOW_HEAP_END then (s, none)
  else
    match s.blocks.find? (fun b => b.addr = ptr - HEADER_SIZE) with
    | none => (s, none)     -- ptr-16 is not a header: the C reads garbage bytes
    | some b =>
      -- `old_size >= new_size` (aligned): shrink in place, block untouched
      if meowHeapAlign newSize ≤ b.size then (s, some ptr)
      else
        match meow_heap_alloc s (meowHeapAlign newSize) with
        | (s1, some p) => ((meow_heap_free s1 ptr).1, some p)
        | (s1, none) => (s1, none)

/-- `meow_heap_calloc` (meow_heap_allocator.c:302-319).  The `count * size`
product is a 32-bit `size_t` multiplication, guarded against overflow first;
zeroing the payload is not modelled. -/
def meow_heap_calloc (s : HeapState) (count size : Nat) : HeapState × Option Nat :=
  if count ≠ 0 ∧ size > SIZE_MAX / count then (s, none)
  else meow_heap_alloc s (count * size % UINT32_MOD)

/-! ### Territory allocator (meow_physical_memory.c)

The bitmap (an array of uint32 words, one bit per territory) is modelled as a
function from territory index to its bit; `purr_alloc_territory` and
`purr_free_territory` only ever touch bits with index < `total_territories`.
All counters are uint32 values that stay far below 2^32
(`total_territories <= MAX_TERRITORIES = 32768`). -/

def TERRITORY_SIZE : Nat := 4096
def MAX_TERRITORIES : Nat := 32768

structure PmmState where
  total_territories : Nat
  occupied_territories : Nat
  bitmap : Nat → Bool          -- true = bit set = occupied
  initialized : Bool           -- pmm_initialized
  reserved_territories : Nat

def pmmUninit : PmmState :=
  { total_territories := 0, occupied_territories := 0, bitmap := fun _ => false
  , initialized := false, reserved_territories := 0 }

/-- `purr_memory_init` (meow_physical_memory.c:13-91).  `kernel_end` is the
address of the linker symbol `_kernel_end`.  On the failure paths the C code
returns with `pmm_initialized` still 0 (some globals may have been assigned,
but every other entry point is guarded by the flag, so the uninitialized
state is returned whole). -/
def purr_memory_init (memory_size kernel_end : Nat) : PmmState :=
  if memory_size = 0 then pmmUninit
  else if memory_size < 8 * 1024 * 1024 then pmmUninit
  else
    let total := memory_size / TERRITORY_SIZE
    if total = 0 then pmmUninit
    else
      let total := min total MAX_TERRITORIES
      let bitmap_size_bytes := (total + 31) / 32 * 4
      let bitmap_start := (kernel_end + 4096 - 1) / 4096 * 4096 + 65536
      if bitmap_start + bitmap_size_bytes > memory_size then pmmUninit
      else
        let first_free_addr := bitmap_start + bitmap_size_bytes
        let reserved := min (first_free_addr / TERRITORY_SIZE) total
        -- all bits start set (0xFFFFFFFF words); bits reserved..total-1 are
        -- then cleared, decrementing occupied_territories each time
        { total_territories := total
        , occupied_territories := total - (total - reserved)
        , bitmap := fun t => decide (t < reserved) || decide (total ≤ t)
        , initialized := true
        , reserved_territories := reserved }

/-- The linear scan of `purr_alloc_territory` (meow_physical_memory.c:123-137):
first clear bit with index in [lo, total). -/
def pmmScan (bm : Nat → Bool) (lo total : Nat) : Option Nat :=
  (List.range total).find? (fun t => lo ≤ t ∧ bm t = false)

/-- `purr_alloc_territory` (meow_physical_memory.c:111-141).  Returns the new
state and the physical address (0 = failure sentinel). -/
def purr_alloc_territory (s : PmmState) : PmmState × Nat :=
  if s.initialized = false then (s, 0)
  else if s.occupied_territories ≥ s.total_territories then (s, 0)
  else
    match pmmScan s.bitmap s.reserved_territories s.total_territories with
    | none => (s, 0)
    | some t =>
      ({ s with bitmap := (fun u => if u = t then true else s.bitmap u),
                occupied_territories := s.occupied_territories + 1 }, t * TERRITORY_SIZE)

/-- `purr_free_territory` (meow_physical_memory.c:143-181); the territory
index is `physical_address / TERRITORY_SIZE`. -/
def purr_free_territory (s : PmmState) (physical_address : Nat) : PmmState :=
  if s.initialized = false then s
  else if physical_address = 0 then s
  else if physical_address / TERRITORY_SIZE ≥ s.total_territories then s
  else if physical_address / TERRITORY_SIZE / 32 ≥ (s.total_territories + 31) / 32 then s
  else if s.bitmap (physical_address / TERRITORY_SIZE) = false then s  -- already free
  else
    { s with
        bitmap := (fun u => if u = physical_address / TERRITORY_SIZE then false
          else s.bitmap u),
        occupied_territories := s.occupied_territories - 1 }

/-- `get_purr_memory_stats` (meow_physical_memory.c:208-212); the three out
parameters, as (total, occupied, free). -/
def get_purr_memory_stats (s : PmmState) : Nat × Nat × Nat :=
  ( if s.initialized then s.total_territories else 0
  , if s.initialized then s.occupied_territories else 0
  , if s.initialized then s.total_territories - s.occupied_territories else 0 )

/-- States reachable from a successful `purr_memory_init` by any sequence of
`purr_alloc_territory` / `purr_free_territory` calls. -/
inductive PmmReach : PmmState → Prop
  | init (memory_size kernel_end : Nat)
      (h : (purr_memory_init memory_size kernel_end).initialized = true) :
      PmmReach (purr_memory_init memory_size kernel_end)
  | alloc {s : PmmState} : PmmReach s → PmmReach (purr_alloc_territory s).1
  | free {s : PmmState} (a : Nat) : PmmReach s → PmmReach (purr_free_territory s a)

/-- Number of set bits with territory index below `total` (the occupied
territories actually recorded in the bitmap). -/
def pmmBitCount (s : PmmState) : Nat :=
  (List.range s.total_territories).countP (fun t => s.bitmap t)

/-! ### Syscall dispatch (meow_syscall_table.c)

A handler is a C function pointer invoked with the four arguments and
returning a `meow_error_t`; it is modelled as a Lean function (its side
effects on other subsystems are outside the dispatcher and not consulted by
the dispatcher's own logic).  The uint32 statistics counters wrap at 2^32. -/

def MAX_SYSCALLS : Nat := 128

structure SyscallSlot where
  handler : Option (Nat → Nat → Nat → Nat → Int)   -- none = NULL
  arg_count : Nat
  implemented : Bool

structure SyscallStats where
  total_calls : Nat
  successful_calls : Nat
  failed_calls : Nat
  invalid_calls : Nat
  call_counts : Nat → Nat

structure SyscallState where
  table : Nat → SyscallSlot
  stats : SyscallStats
  initialized : Bool

/-- `syscall_register` (meow_syscall_table.c:76-98); the `name` string only
feeds logging, so only its NULL-ness matters. -/
def syscall_register (s : SyscallState) (num : Nat)
    (handler : Option (Nat → Nat → Nat → Nat → Int)) (nameNonNull : Bool)
    (arg_count : Nat) : SyscallState × Int :=
  if num ≥ MAX_SYSCALLS then (s, MEOW_ERROR_INVALID_PARAMETER)
  else if handler.isNone ∨ nameNonNull = false then (s, MEOW_ERROR_NULL_POINTER)
  else
    ({ s with table := fun n => if n = num then
        { handler := handler, arg_count := arg_count, implemented := true }
      else s.table n }, MEOW_SUCCESS)

/-- `syscall_dispatcher` (meow_syscall_table.c:126-171).  `total_calls` is
incremented before the number validation; `call_counts[num]` only when the
slot dispatches; the handler result is propagated verbatim and recorded in
`successful_calls` / `failed_calls`. -/
def syscall_dispatcher (s : SyscallState) (num a1 a2 a3 a4 : Nat) :
    SyscallState × Int :=
  if s.initialized = false then (s, MEOW_ERROR_NOT_INITIALIZED)
  else if num ≥ MAX_SYSCALLS then
    ({ s with stats := { s.stats with
        total_calls := (s.stats.total_calls + 1) % UINT32_MOD,
        invalid_calls := (s.stats.invalid_calls + 1) % UINT32_MOD } },
      MEOW_ERROR_INVALID_PARAMETER)
  else if (s.table num).implemented = false ∨ (s.table num).handler.isNone then
    ({ s with stats := { s.stats with
        total_calls := (s.stats.total_calls + 1) % UINT32_MOD,
        invalid_calls := (s.stats.invalid_calls + 1) % UINT32_MOD } },
      MEOW_ERROR_NOT_SUPPORTED)
  else
    match (s.table num).handler with
    | none => (s, MEOW_ERROR_NOT_SUPPORTED)   -- excluded by the guard above
    | some h =>
      if h a1 a2 a3 a4 = MEOW_SUCCESS then
        ({ s with stats := { s.stats with
            total_calls := (s.stats.total_calls + 1) % UINT32_MOD,
            call_counts := fun n => if n = num
              then (s.stats.call_counts n + 1) % UINT32_MOD
              else s.stats.call_counts n,
            successful_calls := (s.stats.successful_calls + 1) % UINT32_MOD } },
          h a1 a2 a3 a4)
      else
        ({ s with stats := { s.stats with
            total_calls := (s.stats.total_calls + 1) % UINT32_MOD,
            call_counts := fun n => if n = num
              then (s.stats.call_counts n + 1) % UINT32_MOD
              else s.stats.call_counts n,
            failed_calls := (s.stats.failed_calls + 1) % UINT32_MOD } },
          h a1 a2 a3 a4)

/-! ### Task model (meow_task.h / meow_task.c) -/

def MAX_TASKS : Nat := 64
def TASK_STACK_SIZE : Nat := 4096

/- sizeof(cpu_context_t): 17 packed uint32 fields on the x86 target. -/
def CPU_CONTEXT_SIZE : Nat := 68

inductive TaskState where
  | unused | ready | running | blocked | terminated
  deriving DecidableEq

inductive TaskPriority where
  | idle | low | normal | high | realtime
  deriving DecidableEq

/-- The integer value of the `task_priority_t` enum constant. -/
def TaskPriority.toNat : TaskPriority → Nat
  | .idle => 0
  | .low => 1
  | .normal => 2
  | .high => 3
  | .realtime => 4

/-- One entry of `task_table` (`task_t`).  The `next`/`prev` intrusive queue
links are represented by the explicit queue lists in `KernelState`;
`child_pids` and `fd_table` are always NULL on the modelled paths and the
name string copy only feeds logging, so name is kept whole. -/
structure TaskSlot where
  pid : Nat
  name : String
  state : TaskState
  priority : TaskPriority
  time_slice : Nat
  total_runtime : Nat
  contextPtr : Nat             -- `context` pointer; 0 = NULL
  territory_id : Nat
  stack_base : Nat             -- 0 = NULL
  stack_size : Nat
  stack_top : Nat
  parent_pid : Nat
  creation_time : Nat
  last_scheduled : Nat
  entry_point : Nat            -- function pointer as an address; 0 = NULL
  entry_arg : Nat
  exit_code : Int
  deriving DecidableEq

/-- An UNUSED slot as left by `task_system_init` / `task_cleanup_terminated`. -/
def unusedSlot : TaskSlot :=
  { pid := 0, name := "", state := .unused, priority := .idle, time_slice := 0
  , total_runtime := 0, contextPtr := 0, territory_id := 0, stack_base := 0
  , stack_size := 0, stack_top := 0, parent_pid := 0, creation_time := 0
  , last_scheduled := 0, entry_point := 0, entry_arg := 0, exit_code := 0 }

/-- Combined state of the subsystems that `task_create` touches. -/
structure KernelState where
  pmm : PmmState
  heap : HeapState
  task_table : List TaskSlot   -- MAX_TASKS entries
  next_pid : Nat
  current_task : Option Nat    -- index of the current task; none = NULL
  ready_queue : List Nat       -- slot indices, head of list = ready_queue_head

/-- `find_free_task_slot` (meow_task.c:30-38): index of the first UNUSED slot. -/
def find_free_task_slot (table : List TaskSlot) : Option Nat :=
  table.findIdx? (fun t => t.state = .unused)

/-- `task_setup_initial_context` (meow_task.c:388-414) writes the freshly
allocated context structure and the new task's own stack (memory this task
exclusively owns, not modelled byte-wise) and always returns MEOW_SUCCESS. -/
def task_setup_initial_context : Int := MEOW_SUCCESS

/-- `task_create` (meow_task.c:140-228).  `name` is `none` for a NULL name
pointer; `entry_point` is the entry function pointer (0 = NULL); `ticks` is
the HAL timer value read for `creation_time`.  Returns the new state and the
pid (0 = failure). -/
def task_create (K : KernelState) (name : Option String) (entry_point : Nat)
    (arg : Nat) (priority : TaskPriority) (stack_size : Nat) (ticks : Nat) :
    KernelState × Nat :=
  if name.isNone then (K, 0)
  else if entry_point = 0 then (K, 0)
  else
    match find_free_task_slot K.task_table with
    | none => (K, 0)
    | some i =>
      let stack_size := if stack_size = 0 then TASK_STACK_SIZE else stack_size
      let (pmm1, territory_id) := purr_alloc_territory K.pmm
      if territory_id = 0 then ({ K with pmm := pmm1 }, 0)
      else
        let (heap1, stackPtr) := meow_heap_alloc K.heap stack_size
        match stackPtr with
        | none =>
          ({ K with pmm := purr_free_territory pmm1 territory_id, heap := heap1 }, 0)
        | some stack_base =>
          let (heap2, ctxPtr) := meow_heap_alloc heap1 CPU_CONTEXT_SIZE
          match ctxPtr with
          | none =>
            let heap3 := (meow_heap_free heap2 stack_base).1
            ({ K with pmm := purr_free_territory pmm1 territory_id, heap := heap3 }, 0)
          | some context =>
            let slot : TaskSlot :=
              { pid := K.next_pid
              , name := name.getD ""
              , state := .ready
              , priority := priority
              , time_slice := 10
              , total_runtime := 0
              , contextPtr := context
              , territory_id := territory_id
              , stack_base := stack_base
              , stack_size := stack_size
              , stack_top := stack_base + stack_size
              , parent_pid :=
                  match K.current_task with
                  | some c => ((K.task_table.getD c unusedSlot)).pid
                  | none => 0
              , creation_time := ticks
              , last_scheduled := 0
              , entry_point := entry_point
              , entry_arg := arg
              , exit_code := 0 }
            -- task_setup_initial_context never fails; on its (dead) failure
            -- branch the C would call task_free_resources and return 0
            if task_setup_initial_context ≠ MEOW_SUCCESS then
              ({ K with pmm := purr_free_territory pmm1 territory_id,
                        heap := (meow_heap_free (meow_heap_free heap2 context).1 stack_base).1,
                        task_table := K.task_table.set i slot }, 0)
            else
              ({ K with pmm := pmm1,
                        heap := heap2,
                        task_table := K.task_table.set i slot,
                        next_pid := K.next_pid + 1,
                        ready_queue := i :: K.ready_queue }, K.next_pid)

/-! ### Scheduler (meow_scheduler.c) -/

/-- The first pass of `select_next_task` (meow_scheduler.c:128-136): linear
scan tracking `best_task` (here: its index) and `highest_priority`, which
starts at PRIORITY_IDLE (0); a READY task is taken only when its priority is
strictly greater than the running maximum. -/
def selectFirstPass : List TaskSlot → Nat → Option Nat → Nat → Option Nat
  | [], _, best, _ => best
  | t :: rest, i, best, highest =>
    if t.state = .ready ∧ t.priority.toNat > highest then
      selectFirstPass rest (i + 1) (some i) t.priority.toNat
    else
      selectFirstPass rest (i + 1) best highest

/-- The second pass (meow_scheduler.c:139-147): if the first pass found
nothing, take the first READY task of priority PRIORITY_IDLE. -/
def selectSecondPass : List TaskSlot → Nat → Option Nat
  | [], _ => none
  | t :: rest, i =>
    if t.state = .ready ∧ t.priority = .idle then some i
    else selectSecondPass rest (i + 1)

/-- `select_next_task` (meow_scheduler.c:122-153), as the index of the chosen
task-table entry.  The `wake_sleeping_tasks()` pass runs after the selection
and only promotes BLOCKED entries, so it does not affect the returned task. -/
def select_next_task (table : List TaskSlot) : Option Nat :=
  match selectFirstPass table 0 none 0 with
  | some i => some i
  | none => selectSecondPass table 0

/-! ### Derived heap notions used by the claims -/

/-- Sum over the chain of `size + header_size` (the bytes each block covers). -/
def sumBlocks (l : List HeapBlock) : Nat :=
  (l.map (fun b => b.size + HEADER_SIZE)).sum

/-- `true` iff no block is free while its successor in the chain is also free
and physically adjacent (successor address = end of this block's payload). -/
def noAdjFree : List HeapBlock → Bool
  | b :: c :: rest =>
    (!(b.occupied = false ∧ c.occupied = false ∧
        b.addr + HEADER_SIZE + b.size = c.addr) && noAdjFree (c :: rest))
  | _ => true

/-- The occupied blocks of the chain, in chain order. -/
def occBlocks (l : List HeapBlock) : List HeapBlock :=
  l.filter (fun b => b.occupied = true)

/-- The chain tiles the address range starting at `a`: each block's header
sits at the end of its predecessor's payload.  This is how
`meow_heap_init` lays out the heap and every split/merge keeps it. -/
def tiledFrom (a : Nat) : List HeapBlock → Bool
  | [] => true
  | b :: rest => decide (b.addr = a) && tiledFrom (a + HEADER_SIZE + b.size) rest

/-- Every block header carries the intact magic value. -/
def magicAll (l : List HeapBlock) : Bool :=
  l.all (fun b => b.magic = MEOW_HEAP_MAGIC_VALUE)

/-- Structural well-formedness of a heap state as produced by the allocator
itself: an uninitialized heap has a NULL chain (`first_cat_bed = NULL`), and
an initialized one tiles the whole heap region with intact magics. -/
def heapWF (s : HeapState) : Bool :=
  if s.initialized then
    tiledFrom MEOW_HEAP_START s.blocks && magicAll s.blocks &&
      decide (sumBlocks s.blocks = MEOW_HEAP_SIZE_BYTES)
  else decide (s.blocks = [])

/-- Heap states reachable from a successful `meow_heap_init` by any sequence
of `meow_heap_alloc`, `meow_heap_free`, `meow_heap_realloc` and
`meow_heap_calloc` calls. -/
inductive HeapReach : HeapState → Prop
  | init : HeapReach (meow_heap_init heapInitial).1
  | alloc {s : HeapState} (size : Nat) :
      HeapReach s → HeapReach (meow_heap_alloc s size).1
  | free {s : HeapState} (ptr : Nat) :
      HeapReach s → HeapReach (meow_heap_free s ptr).1
  | realloc {s : HeapState} (ptr newSize : Nat) :
      HeapReach s → HeapReach (meow_heap_realloc s ptr newSize).1
  | calloc {s : HeapState} (count size : Nat) :
      HeapReach s → HeapReach (meow_heap_calloc s count size).1

/-! ### Concrete states used by witnesses and counterexamples -/

/-- Heap after `meow_heap_init`. -/
def heapS0 : HeapState := (meow_heap_init heapInitial).1

/-- ... then `meow_heap_alloc 100` (returns 0x200010). -/
def heapS1 : HeapState := (meow_heap_alloc heapS0 100).1

/-- ... then `meow_heap_alloc 200` (returns 0x200084). -/
def heapS2 : HeapState := (meow_heap_alloc heapS1 200).1

/-- ... then `meow_heap_free 0x200010`: the first allocation is free again,
the second still occupied, followed by the free tail block. -/
def heapS3 : HeapState := (meow_heap_free heapS2 2097168).1

/-- Territory allocator after `purr_memory_init(16MB at 8MB min, kernel end
at 1MB)`: 2048 territories, the first 272 reserved. -/
def pmmS0 : PmmState := purr_memory_init 8388608 1048576

/-! ### List-shape helper lemmas -/

theorem sumBlocks_append (l1 l2 : List HeapBlock) :
    sumBlocks (l1 ++ l2) = sumBlocks l1 + sumBlocks l2 := by
  simp [sumBlocks]

theorem sumBlocks_cons (b : HeapBlock) (l : List HeapBlock) :
    sumBlocks (b :: l) = b.size + HEADER_SIZE + sumBlocks l := by
  simp [sumBlocks]

theorem occBlocks_append (l1 l2 : List HeapBlock) :
    occBlocks (l1 ++ l2) = occBlocks l1 ++ occBlocks l2 := by
  simp [occBlocks]

theorem occBlocks_cons (b : HeapBlock) (l : List HeapBlock) :
    occBlocks (b :: l) =
      if b.occupied = true then b :: occBlocks l else occBlocks l := by
  cases hb : b.occupied <;> simp [occBlocks, List.filter_cons, hb]

theorem magicAll_append (l1 l2 : List HeapBlock) :
    magicAll (l1 ++ l2) = (magicAll l1 && magicAll l2) := by
  simp [magicAll]

theorem magicAll_cons (b : HeapBlock) (l : List HeapBlock) :
    magicAll (b :: l) =
      (decide (b.magic = MEOW_HEAP_MAGIC_VALUE) && magicAll l) := by
  simp [magicAll]

theorem tiledFrom_append (a : Nat) (l1 l2 : List HeapBlock) :
    tiledFrom a (l1 ++ l2) = (tiledFrom a l1 && tiledFrom (a + sumBlocks l1) l2) := by
  induction l1 generalizing a with
  | nil => simp [tiledFrom, sumBlocks]
  | cons b rest ih =>
    have h1 : tiledFrom a ((b :: rest) ++ l2)
        = (decide (b.addr = a) && tiledFrom (a + HEADER_SIZE + b.size) (rest ++ l2)) := rfl
    have h2 : tiledFrom a (b :: rest)
        = (decide (b.addr = a) && tiledFrom (a + HEADER_SIZE + b.size) rest) := rfl
    rw [h1, h2, ih, sumBlocks_cons, Bool.and_assoc,
        show a + HEADER_SIZE + b.size + sumBlocks rest
          = a + (b.size + HEADER_SIZE + sumBlocks rest) by omega]

/-- Along a tiled chain every block sits inside `[a, a + sumBlocks l)`. -/
theorem tiledFrom_mem_bounds (a : Nat) (l : List HeapBlock)
    (h : tiledFrom a l = true) :
    ∀ b ∈ l, a ≤ b.addr ∧ b.addr + HEADER_SIZE + b.size ≤ a + sumBlocks l := by
  induction l generalizing a with
  | nil => intro b hb; simp at hb
  | cons c rest ih =>
    intro b hb
    simp only [tiledFrom, Bool.and_eq_true, decide_eq_true_eq] at h
    rcases List.mem_cons.mp hb with hb | hb
    · subst hb
      constructor
      · omega
      · have : 0 ≤ sumBlocks rest := Nat.zero_le _
        rw [sumBlocks_cons]; omega
    · have := ih (a + HEADER_SIZE + c.size) h.2 b hb
      rw [sumBlocks_cons]; omega

/-! ### mergeFrom / mergeBlocks lemmas -/

theorem mergeFrom_sum (l : List HeapBlock) :
    ∀ b, sumBlocks (mergeFrom b l) = b.size + HEADER_SIZE + sumBlocks l := by
  induction l with
  | nil => intro b; simp [mergeFrom, sumBlocks_cons, sumBlocks]
  | cons c rest ih =>
    intro b
    rw [mergeFrom]
    by_cases hg : b.occupied = false ∧ c.occupied = false ∧
        b.addr + HEADER_SIZE + b.size = c.addr
    · rw [if_pos hg, ih]
      simp only [sumBlocks_cons]
      omega
    · rw [if_neg hg, sumBlocks_cons, ih, sumBlocks_cons]

theorem mergeBlocks_sum (l : List HeapBlock) :
    sumBlocks (mergeBlocks l) = sumBlocks l := by
  cases l with
  | nil => rfl
  | cons b rest => rw [mergeBlocks, mergeFrom_sum, sumBlocks_cons]

theorem mergeFrom_occ (l : List HeapBlock) :
    ∀ b, occBlocks (mergeFrom b l) = occBlocks (b :: l) := by
  induction l with
  | nil => intro b; rfl
  | cons c rest ih =>
    intro b
    rw [mergeFrom]
    by_cases hg : b.occupied = false ∧ c.occupied = false ∧
        b.addr + HEADER_SIZE + b.size = c.addr
    · rw [if_pos hg, ih]
      simp [occBlocks_cons, hg.1, hg.2.1]
    · rw [if_neg hg]
      rw [occBlocks_cons, occBlocks_cons, ih]

theorem mergeBlocks_occ (l : List HeapBlock) :
    occBlocks (mergeBlocks l) = occBlocks l := by
  cases l with
  | nil => rfl
  | cons b rest => rw [mergeBlocks, mergeFrom_occ]

theorem mergeFrom_magic (l : List HeapBlock) :
    ∀ b, magicAll (b :: l) = true → magicAll (mergeFrom b l) = true := by
  induction l with
  | nil => intro b h; exact h
  | cons c rest ih =>
    intro b h
    simp only [magicAll_cons, Bool.and_eq_true] at h
    rw [mergeFrom]
    by_cases hg : b.occupied = false ∧ c.occupied = false ∧
        b.addr + HEADER_SIZE + b.size = c.addr
    · rw [if_pos hg]
      apply ih
      simp only [magicAll_cons, Bool.and_eq_true]
      exact ⟨h.1, h.2.2⟩
    · rw [if_neg hg]
      simp only [magicAll_cons, Bool.and_eq_true]
      refine ⟨h.1, ?_⟩
      apply ih
      simp only [magicAll_cons, Bool.and_eq_true]
      exact h.2

theorem mergeBlocks_magic (l : List HeapBlock) (h : magicAll l = true) :
    magicAll (mergeBlocks l) = true := by
  cases l with
  | nil => exact h
  | cons b rest => rw [mergeBlocks]; exact mergeFrom_magic rest b h

theorem mergeFrom_tiled (l : List HeapBlock) :
    ∀ (a : Nat) (b : HeapBlock), tiledFrom a (b :: l) = true →
    tiledFrom a (mergeFrom b l) = true := by
  induction l with
  | nil => intro a b h; exact h
  | cons c rest ih =>
    intro a b h
    simp only [tiledFrom, Bool.and_eq_true, decide_eq_true_eq] at h
    obtain ⟨hb, hc, hrest⟩ := h
    rw [mergeFrom]
    by_cases hg : b.occupied = false ∧ c.occupied = false ∧
        b.addr + HEADER_SIZE + b.size = c.addr
    · rw [if_pos hg]
      apply ih
      simp only [tiledFrom, Bool.and_eq_true, decide_eq_true_eq]
      refine ⟨hb, ?_⟩
      rw [show a + HEADER_SIZE + (b.size + c.size + HEADER_SIZE)
        = a + HEADER_SIZE + b.size + HEADER_SIZE + c.size by omega]
      exact hrest
    · rw [if_neg hg]
      rw [tiledFrom]
      simp only [Bool.and_eq_true, decide_eq_true_eq]
      refine ⟨hb, ?_⟩
      apply ih
      simp only [tiledFrom, Bool.and_eq_true, decide_eq_true_eq]
      exact ⟨hc, hrest⟩

theorem mergeBlocks_tiled (a : Nat) (l : List HeapBlock)
    (h : tiledFrom a l = true) : tiledFrom a (mergeBlocks l) = true := by
  cases l with
  | nil => exact h
  | cons b rest => rw [mergeBlocks]; exact mergeFrom_tiled rest a b h

/-- The head of the merged suffix is the starting block, possibly grown. -/
theorem mergeFrom_cons (l : List HeapBlock) :
    ∀ b, ∃ s tail, mergeFrom b l = { b with size := s } :: tail ∧ b.size ≤ s := by
  induction l with
  | nil => intro b; exact ⟨b.size, [], rfl, le_refl _⟩
  | cons c rest ih =>
    intro b
    rw [mergeFrom]
    by_cases hg : b.occupied = false ∧ c.occupied = false ∧
        b.addr + HEADER_SIZE + b.size = c.addr
    · rw [if_pos hg]
      obtain ⟨s, tail, heq, hle⟩ := ih { b with size := b.size + c.size + HEADER_SIZE }
      refine ⟨s, tail, heq, ?_⟩
      simp at hle
      omega
    · rw [if_neg hg]
      exact ⟨b.size, mergeFrom c rest, rfl, le_refl _⟩

theorem mergeFrom_noAdjFree (l : List HeapBlock) :
    ∀ b, noAdjFree (mergeFrom b l) = true := by
  induction l with
  | nil => intro b; rfl
  | cons c rest ih =>
    intro b
    rw [mergeFrom]
    by_cases hg : b.occupied = false ∧ c.occupied = false ∧
        b.addr + HEADER_SIZE + b.size = c.addr
    · rw [if_pos hg]
      exact ih _
    · rw [if_neg hg]
      obtain ⟨s, tail, heq, -⟩ := mergeFrom_cons rest c
      rw [heq]
      have hihc := ih c
      rw [heq] at hihc
      simp only [noAdjFree, Bool.and_eq_true] at hihc ⊢
      refine ⟨?_, hihc⟩
      simp only [Bool.not_eq_true']
      by_contra hcon
      simp only [Bool.not_eq_false, decide_eq_true_eq] at hcon
      exact hg ⟨hcon.1, hcon.2.1, hcon.2.2⟩

/-- After the merge pass no two chain-adjacent free blocks are physically
adjacent. -/
theorem mergeBlocks_noAdjFree (l : List HeapBlock) :
    noAdjFree (mergeBlocks l) = true := by
  cases l with
  | nil => rfl
  | cons b rest => rw [mergeBlocks]; exact mergeFrom_noAdjFree rest b

/-! ### allocScan lemmas -/

/-- A successful scan is a first-fit decomposition of the chain: a prefix is
kept unchanged, the found free block is marked occupied (and possibly split),
the rest is kept unchanged. -/
theorem allocScan_decomp (size : Nat) :
    ∀ (l l' : List HeapBlock) (p : Nat), allocScan size l = .ok l' p →
    ∃ pre B post, l = pre ++ B :: post ∧ B.occupied = false ∧ size ≤ B.size ∧
      p = B.addr + HEADER_SIZE ∧
      ((l' = pre ++ { B with size := size, occupied := true } ::
          splitRemainder B size :: post ∧
        B.size > size + HEADER_SIZE + MEOW_HEAP_MIN_BLOCK_SIZE) ∨
       (l' = pre ++ { B with occupied := true } :: post ∧
        ¬ B.size > size + HEADER_SIZE + MEOW_HEAP_MIN_BLOCK_SIZE)) := by
  intro l
  induction l with
  | nil => intro l' p h; rw [allocScan] at h; cases h
  | cons b rest ih =>
    intro l' p h
    rw [allocScan] at h
    by_cases hfit : b.occupied = false ∧ size ≤ b.size
    · rw [if_pos hfit] at h
      by_cases hsplit : b.size > size + HEADER_SIZE + MEOW_HEAP_MIN_BLOCK_SIZE
      · rw [if_pos hsplit] at h
        by_cases hov : (b.addr + HEADER_SIZE + size) % UINT32_MOD ≥ MEOW_HEAP_END ∨
            (b.addr + HEADER_SIZE + size) % UINT32_MOD < b.addr
        · rw [if_pos hov] at h; cases h
        · rw [if_neg hov] at h
          simp only [AllocScanResult.ok.injEq] at h
          obtain ⟨rfl, rfl⟩ := h
          exact ⟨[], b, rest, rfl, hfit.1, hfit.2, rfl, Or.inl ⟨rfl, hsplit⟩⟩
      · rw [if_neg hsplit] at h
        simp only [AllocScanResult.ok.injEq] at h
        obtain ⟨rfl, rfl⟩ := h
        exact ⟨[], b, rest, rfl, hfit.1, hfit.2, rfl, Or.inr ⟨rfl, hsplit⟩⟩
    · rw [if_neg hfit] at h
      cases hrec : allocScan size rest with
      | noBlock => rw [hrec] at h; cases h
      | splitOverflow => rw [hrec] at h; cases h
      | ok l2 q =>
        rw [hrec] at h
        simp only [AllocScanResult.ok.injEq] at h
        obtain ⟨rfl, rfl⟩ := h
        obtain ⟨pre, B, post, hl, hocc, hsz, hp, hcase⟩ := ih l2 q hrec
        refine ⟨b :: pre, B, post, by rw [hl]; rfl, hocc, hsz, hp, ?_⟩
        rcases hcase with ⟨h1, h2⟩ | ⟨h1, h2⟩
        · exact Or.inl ⟨by rw [h1]; rfl, h2⟩
        · exact Or.inr ⟨by rw [h1]; rfl, h2⟩

theorem allocScan_sum (size : Nat) (l l' : List HeapBlock) (p : Nat)
    (h : allocScan size l = .ok l' p) : sumBlocks l' = sumBlocks l := by
  obtain ⟨pre, B, post, hl, -, hsz, -, hcase⟩ := allocScan_decomp size l l' p h
  subst hl
  rcases hcase with ⟨h1, h2⟩ | ⟨h1, -⟩
  · subst h1
    simp only [sumBlocks_append, sumBlocks_cons, splitRemainder]
    omega
  · subst h1
    simp only [sumBlocks_append, sumBlocks_cons]

theorem allocScan_magic (size : Nat) (l l' : List HeapBlock) (p : Nat)
    (hm : magicAll l = true) (h : allocScan size l = .ok l' p) :
    magicAll l' = true := by
  obtain ⟨pre, B, post, hl, -, -, -, hcase⟩ := allocScan_decomp size l l' p h
  subst hl
  simp only [magicAll_append, magicAll_cons, Bool.and_eq_true] at hm
  rcases hcase with ⟨h1, -⟩ | ⟨h1, -⟩ <;> subst h1 <;>
    simp only [magicAll_append, magicAll_cons, Bool.and_eq_true, splitRemainder] <;>
    refine ⟨hm.1, ?_⟩
  · exact ⟨hm.2.1, by simp [MEOW_HEAP_MAGIC_VALUE], hm.2.2⟩
  · exact ⟨hm.2.1, hm.2.2⟩

/-- A successful scan on a nonempty chain keeps the head's address, and the
head either keeps its occupancy or becomes occupied. -/
theorem allocScan_head (size : Nat) (c : HeapBlock) (rest l' : List HeapBlock)
    (p : Nat) (h : allocScan size (c :: rest) = .ok l' p) :
    ∃ c2 tail, l' = c2 :: tail ∧ c2.addr = c.addr ∧
      (c2.occupied = c.occupied ∨ c2.occupied = true) := by
  rw [allocScan] at h
  by_cases hfit : c.occupied = false ∧ size ≤ c.size
  · rw [if_pos hfit] at h
    by_cases hsplit : c.size > size + HEADER_SIZE + MEOW_HEAP_MIN_BLOCK_SIZE
    · rw [if_pos hsplit] at h
      by_cases hov : (c.addr + HEADER_SIZE + size) % UINT32_MOD ≥ MEOW_HEAP_END ∨
          (c.addr + HEADER_SIZE + size) % UINT32_MOD < c.addr
      · rw [if_pos hov] at h; cases h
      · rw [if_neg hov] at h
        simp only [AllocScanResult.ok.injEq] at h
        exact ⟨_, _, h.1.symm, rfl, Or.inr rfl⟩
    · rw [if_neg hsplit] at h
      simp only [AllocScanResult.ok.injEq] at h
      exact ⟨_, _, h.1.symm, rfl, Or.inr rfl⟩
  · rw [if_neg hfit] at h
    cases hrec : allocScan size rest with
    | noBlock => rw [hrec] at h; cases h
    | splitOverflow => rw [hrec] at h; cases h
    | ok l2 q =>
      rw [hrec] at h
      simp only [AllocScanResult.ok.injEq] at h
      exact ⟨c, l2, h.1.symm, rfl, Or.inl rfl⟩

theorem UINT32_MOD_eq : UINT32_MOD = 4294967296 := rfl

theorem HEADER_SIZE_eq : HEADER_SIZE = 16 := rfl

theorem MEOW_HEAP_END_eq : MEOW_HEAP_END = 3145728 := rfl

theorem MEOW_HEAP_START_eq : MEOW_HEAP_START = 2097152 := rfl

theorem allocScan_tiled (size : Nat) :
    ∀ (l : List HeapBlock) (a : Nat) (l' : List HeapBlock) (p : Nat),
    tiledFrom a l = true → a + sumBlocks l ≤ MEOW_HEAP_END →
    allocScan size l = .ok l' p → tiledFrom a l' = true := by
  intro l
  induction l with
  | nil => intro a l' p ht hb h; rw [allocScan] at h; cases h
  | cons b rest ih =>
    intro a l' p ht hb h
    have ht' : b.addr = a ∧ tiledFrom (a + HEADER_SIZE + b.size) rest = true := by
      simpa [tiledFrom, Bool.and_eq_true] using ht
    have hbnd : a + (b.size + HEADER_SIZE + sumBlocks rest) ≤ MEOW_HEAP_END := by
      rw [sumBlocks_cons] at hb; omega
    rw [allocScan] at h
    by_cases hfit : b.occupied = false ∧ size ≤ b.size
    · rw [if_pos hfit] at h
      by_cases hsplit : b.size > size + HEADER_SIZE + MEOW_HEAP_MIN_BLOCK_SIZE
      · rw [if_pos hsplit] at h
        by_cases hov : (b.addr + HEADER_SIZE + size) % UINT32_MOD ≥ MEOW_HEAP_END ∨
            (b.addr + HEADER_SIZE + size) % UINT32_MOD < b.addr
        · rw [if_pos hov] at h; cases h
        · rw [if_neg hov] at h
          simp only [AllocScanResult.ok.injEq] at h
          obtain ⟨rfl, -⟩ := h
          have hmod : (b.addr + HEADER_SIZE + size) % UINT32_MOD
              = b.addr + HEADER_SIZE + size := by
            apply Nat.mod_eq_of_lt
            have he := MEOW_HEAP_END_eq
            have hu := UINT32_MOD_eq
            omega
          simp only [tiledFrom, splitRemainder, hmod, Bool.and_eq_true,
            decide_eq_true_eq]
          refine ⟨ht'.1, by omega, ?_⟩
          rw [show a + HEADER_SIZE + size + HEADER_SIZE + (b.size - size - HEADER_SIZE)
            = a + HEADER_SIZE + b.size by omega]
          exact ht'.2
      · rw [if_neg hsplit] at h
        simp only [AllocScanResult.ok.injEq] at h
        obtain ⟨rfl, -⟩ := h
        simp only [tiledFrom, Bool.and_eq_true, decide_eq_true_eq]
        exact ⟨ht'.1, ht'.2⟩
    · rw [if_neg hfit] at h
      cases hrec : allocScan size rest with
      | noBlock => rw [hrec] at h; cases h
      | splitOverflow => rw [hrec] at h; cases h
      | ok l2 q =>
        rw [hrec] at h
        simp only [AllocScanResult.ok.injEq] at h
        obtain ⟨rfl, -⟩ := h
        simp only [tiledFrom, Bool.and_eq_true, decide_eq_true_eq]
        refine ⟨ht'.1, ?_⟩
        exact ih (a + HEADER_SIZE + b.size) l2 q ht'.2 (by omega) hrec

theorem allocScan_noAdj (size : Nat) :
    ∀ (l : List HeapBlock) (a : Nat) (l' : List HeapBlock) (p : Nat),
    noAdjFree l = true → tiledFrom a l = true →
    a + sumBlocks l ≤ MEOW_HEAP_END →
    allocScan size l = .ok l' p → noAdjFree l' = true := by
  intro l
  induction l with
  | nil => intro a l' p hn ht hb h; rw [allocScan] at h; cases h
  | cons b rest ih =>
    intro a l' p hn ht hb h
    have ht' : b.addr = a ∧ tiledFrom (a + HEADER_SIZE + b.size) rest = true := by
      simpa [tiledFrom, Bool.and_eq_true] using ht
    have hbnd : a + (b.size + HEADER_SIZE + sumBlocks rest) ≤ MEOW_HEAP_END := by
      rw [sumBlocks_cons] at hb; omega
    rw [allocScan] at h
    by_cases hfit : b.occupied = false ∧ size ≤ b.size
    · rw [if_pos hfit] at h
      by_cases hsplit : b.size > size + HEADER_SIZE + MEOW_HEAP_MIN_BLOCK_SIZE
      · rw [if_pos hsplit] at h
        by_cases hov : (b.addr + HEADER_SIZE + size) % UINT32_MOD ≥ MEOW_HEAP_END ∨
            (b.addr + HEADER_SIZE + size) % UINT32_MOD < b.addr
        · rw [if_pos hov] at h; cases h
        · rw [if_neg hov] at h
          simp only [AllocScanResult.ok.injEq] at h
          obtain ⟨rfl, -⟩ := h
          have hmod : (b.addr + HEADER_SIZE + size) % UINT32_MOD
              = b.addr + HEADER_SIZE + size := by
            apply Nat.mod_eq_of_lt
            have he := MEOW_HEAP_END_eq
            have hu := UINT32_MOD_eq
            omega
          -- head pair is fine: the found block is now occupied
          cases rest with
          | nil => simp [noAdjFree]
          | cons d r2 =>
            have hn' : (!decide (b.occupied = false ∧ d.occupied = false ∧
                b.addr + HEADER_SIZE + b.size = d.addr)) = true ∧
                noAdjFree (d :: r2) = true := by
              simpa [noAdjFree, Bool.and_eq_true] using hn
            simp only [noAdjFree, Bool.and_eq_true]
            refine ⟨by simp, ?_, hn'.2⟩
            -- the split remainder is free but ends where the found block
            -- ended, and the old chain had no free neighbour there
            simp only [splitRemainder, hmod, Bool.not_eq_true',
              decide_eq_false_iff_not]
            intro hcon
            have hend : a + HEADER_SIZE + size + HEADER_SIZE +
                (b.size - size - HEADER_SIZE) = b.addr + HEADER_SIZE + b.size := by
              omega
            have := hn'.1
            simp only [Bool.not_eq_true', decide_eq_false_iff_not] at this
            exact this ⟨hfit.1, hcon.2.1, by omega⟩
      · rw [if_neg hsplit] at h
        simp only [AllocScanResult.ok.injEq] at h
        obtain ⟨rfl, -⟩ := h
        cases rest with
        | nil => simp [noAdjFree]
        | cons d r2 =>
          have hn' : noAdjFree (d :: r2) = true := by
            have := hn
            simp only [noAdjFree, Bool.and_eq_true] at this
            exact this.2
          simp only [noAdjFree, Bool.and_eq_true]
          exact ⟨by simp, hn'⟩
    · rw [if_neg hfit] at h
      cases hrec : allocScan size rest with
      | noBlock => rw [hrec] at h; cases h
      | splitOverflow => rw [hrec] at h; cases h
      | ok l2 q =>
        rw [hrec] at h
        simp only [AllocScanResult.ok.injEq] at h
        obtain ⟨rfl, -⟩ := h
        cases rest with
        | nil => rw [allocScan] at hrec; cases hrec
        | cons c r2 =>
          have hn' : (!decide (b.occupied = false ∧ c.occupied = false ∧
              b.addr + HEADER_SIZE + b.size = c.addr)) = true ∧
              noAdjFree (c :: r2) = true := by
            simpa [noAdjFree, Bool.and_eq_true] using hn
          have hihl : noAdjFree l2 = true :=
            ih (a + HEADER_SIZE + b.size) l2 q hn'.2 ht'.2 (by omega) hrec
          obtain ⟨c2, tail, rfl, haddr, hocc⟩ :=
            allocScan_head size c r2 l2 q hrec
          simp only [noAdjFree, Bool.and_eq_true]
          refine ⟨?_, by simpa [noAdjFree] using hihl⟩
          simp only [Bool.not_eq_true', decide_eq_false_iff_not]
          intro hcon
          rcases hocc with hsame | htrue
          · have := hn'.1
            simp only [Bool.not_eq_true', decide_eq_false_iff_not] at this
            exact this ⟨hcon.1, by rw [← hsame]; exact hcon.2.1, by rw [← haddr]; exact hcon.2.2⟩
          · rw [htrue] at hcon
            cases hcon.2.1

/-! ### freeScan lemmas -/

/-- A successful header lookup decomposes the chain: the matched block is the
first one at that address, it was occupied with intact magic, and only its
occupied flag is cleared. -/
theorem freeScan_decomp (a : Nat) :
    ∀ (l l' : List HeapBlock), freeScan a l = .ok l' →
    ∃ pre B post, l = pre ++ B :: post ∧ B.addr = a ∧ B.occupied = true ∧
      B.magic = MEOW_HEAP_MAGIC_VALUE ∧
      l' = pre ++ { B with occupied := false } :: post ∧
      ∀ b ∈ pre, b.addr ≠ a := by
  intro l
  induction l with
  | nil => intro l' h; rw [freeScan] at h; cases h
  | cons b rest ih =>
    intro l' h
    rw [freeScan] at h
    by_cases hb : b.addr = a
    · rw [if_pos hb] at h
      by_cases hv : b.occupied = true ∧ b.magic = MEOW_HEAP_MAGIC_VALUE
      · rw [if_pos hv] at h
        simp only [FreeScanResult.ok.injEq] at h
        exact ⟨[], b, rest, rfl, hb, hv.1, hv.2, h.symm, by simp⟩
      · rw [if_neg hv] at h; cases h
    · rw [if_neg hb] at h
      cases hrec : freeScan a rest with
      | notFound => rw [hrec] at h; cases h
      | corrupted => rw [hrec] at h; cases h
      | ok l2 =>
        rw [hrec] at h
        simp only [FreeScanResult.ok.injEq] at h
        obtain ⟨pre, B, post, hl, ha, ho, hm, hl2, hpre⟩ := ih l2 hrec
        refine ⟨b :: pre, B, post, by rw [hl]; rfl, ha, ho, hm, ?_, ?_⟩
        · rw [← h, hl2]; rfl
        · intro c hc
          rcases List.mem_cons.mp hc with rfl | hc
          · exact hb
          · exact hpre c hc

/-- Scanning past a prefix whose headers all miss the target address. -/
theorem freeScan_past_misses (tgt : Nat) (pre : List HeapBlock) :
    ∀ (l : List HeapBlock), (∀ b ∈ pre, b.addr ≠ tgt) →
    freeScan tgt (pre ++ l) =
      match freeScan tgt l with
      | .ok l2 => .ok (pre ++ l2)
      | r => r := by
  induction pre with
  | nil => intro l h; cases hx : freeScan tgt l <;> simp [hx]
  | cons b rest ih =>
    intro l h
    have hb : b.addr ≠ tgt := h b (by simp)
    have hrest : ∀ c ∈ rest, c.addr ≠ tgt := fun c hc => h c (by simp [hc])
    rw [List.cons_append, freeScan, if_neg hb, ih l hrest]
    cases hx : freeScan tgt l <;> simp [hx]

theorem freeScan_sum (a : Nat) (l l' : List HeapBlock)
    (h : freeScan a l = .ok l') : sumBlocks l' = sumBlocks l := by
  obtain ⟨pre, B, post, hl, -, -, -, hl2, -⟩ := freeScan_decomp a l l' h
  subst hl; subst hl2
  simp only [sumBlocks_append, sumBlocks_cons]

theorem freeScan_magic (a : Nat) (l l' : List HeapBlock)
    (hm : magicAll l = true) (h : freeScan a l = .ok l') : magicAll l' = true := by
  obtain ⟨pre, B, post, hl, -, -, -, hl2, -⟩ := freeScan_decomp a l l' h
  subst hl; subst hl2
  simp only [magicAll_append, magicAll_cons, Bool.and_eq_true] at hm ⊢
  exact hm

theorem freeScan_tiled (a0 a : Nat) (l l' : List HeapBlock)
    (h : freeScan a l = .ok l') : tiledFrom a0 l' = tiledFrom a0 l := by
  obtain ⟨pre, B, post, hl, -, -, -, hl2, -⟩ := freeScan_decomp a l l' h
  subst hl; subst hl2
  rw [tiledFrom_append, tiledFrom_append]
  rfl

/-! ### Operation-level invariant preservation -/

theorem MEOW_HEAP_MAX_ALLOC_SIZE_eq : MEOW_HEAP_MAX_ALLOC_SIZE = 524288 := rfl

theorem MEOW_HEAP_MIN_BLOCK_SIZE_eq : MEOW_HEAP_MIN_BLOCK_SIZE = 16 := rfl

/-- The aligned-and-clamped request stays within the maximum allocation. -/
theorem asize_bounds (size : Nat) (h : ¬(size = 0 ∨ size > MEOW_HEAP_MAX_ALLOC_SIZE)) :
    MEOW_HEAP_MIN_BLOCK_SIZE ≤ max (meowHeapAlign size) MEOW_HEAP_MIN_BLOCK_SIZE ∧
    max (meowHeapAlign size) MEOW_HEAP_MIN_BLOCK_SIZE ≤ MEOW_HEAP_MAX_ALLOC_SIZE := by
  have hs : size ≤ 524288 := by
    have := MEOW_HEAP_MAX_ALLOC_SIZE_eq
    omega
  have halign : meowHeapAlign size ≤ 524288 := by
    unfold meowHeapAlign
    simp only [MEOW_HEAP_ALIGNMENT]
    omega
  constructor
  · exact Nat.le_max_right _ _
  · rw [MEOW_HEAP_MAX_ALLOC_SIZE_eq, MEOW_HEAP_MIN_BLOCK_SIZE_eq]
    omega

theorem heapAutoInit_props (s : HeapState) (h : heapWF s = true) :
    heapWF (heapAutoInit s) = true ∧ (heapAutoInit s).initialized = true ∧
    occBlocks (heapAutoInit s).blocks = occBlocks s.blocks ∧
    (noAdjFree s.blocks = true → noAdjFree (heapAutoInit s).blocks = true) := by
  by_cases hi : s.initialized = false
  · have hb : s.blocks = [] := by simpa [heapWF, hi] using h
    have hstep : heapAutoInit s = { blocks := [initialBlock], initialized := true } := by
      unfold heapAutoInit meow_heap_init
      rw [if_pos hi, if_neg (by rw [hi]; exact Bool.false_ne_true)]
    rw [hstep]
    refine ⟨by decide, rfl, ?_, fun _ => by decide⟩
    rw [hb]
    decide
  · have hit : s.initialized = true := by
      cases hx : s.initialized
      · exact absurd hx hi
      · rfl
    have hstep : heapAutoInit s = s := by
      unfold heapAutoInit
      rw [if_neg hi]
    rw [hstep]
    exact ⟨h, hit, rfl, fun hn => hn⟩

/-- Unfolding of `heapWF` for an initialized state. -/
theorem heapWF_init_iff (s : HeapState) (hi : s.initialized = true) :
    heapWF s = true ↔ (tiledFrom MEOW_HEAP_START s.blocks = true ∧
      magicAll s.blocks = true ∧ sumBlocks s.blocks = MEOW_HEAP_SIZE_BYTES) := by
  simp [heapWF, hi, Bool.and_eq_true, and_assoc]

theorem meow_heap_alloc_WF (s : HeapState) (size : Nat) (h : heapWF s = true) :
    heapWF (meow_heap_alloc s size).1 = true ∧
    (noAdjFree s.blocks = true → noAdjFree (meow_heap_alloc s size).1.blocks = true) ∧
    (s.initialized = true → (meow_heap_alloc s size).1.initialized = true) := by
  unfold meow_heap_alloc
  by_cases hv : size = 0 ∨ size > MEOW_HEAP_MAX_ALLOC_SIZE
  · rw [if_pos hv]
    exact ⟨h, fun hn => hn, fun hi => hi⟩
  · rw [if_neg hv]
    obtain ⟨hWF, hinit, -, hAdj⟩ := heapAutoInit_props s h
    obtain ⟨hwf1, hwf2, hwf3⟩ := (heapWF_init_iff _ hinit).mp hWF
    have hbound : MEOW_HEAP_START + sumBlocks (heapAutoInit s).blocks
        ≤ MEOW_HEAP_END := by
      rw [hwf3]; rw [MEOW_HEAP_END]
    cases hscan : allocScan (max (meowHeapAlign size) MEOW_HEAP_MIN_BLOCK_SIZE)
        (heapAutoInit s).blocks with
    | noBlock =>
      exact ⟨hWF, fun hn => hAdj hn, fun _ => hinit⟩
    | splitOverflow =>
      exact ⟨hWF, fun hn => hAdj hn, fun _ => hinit⟩
    | ok l p =>
      refine ⟨?_, fun hn => ?_, fun _ => hinit⟩
      · rw [heapWF_init_iff _ (by exact hinit)]
        exact ⟨allocScan_tiled _ _ _ _ _ hwf1 hbound hscan,
          allocScan_magic _ _ _ _ hwf2 hscan,
          by rw [allocScan_sum _ _ _ _ hscan]; exact hwf3⟩
      · exact allocScan_noAdj _ _ _ _ _ (hAdj hn) hwf1 hbound hscan

theorem meow_heap_free_WF (s : HeapState) (ptr : Nat) (h : heapWF s = true) :
    heapWF (meow_heap_free s ptr).1 = true ∧
    (noAdjFree s.blocks = true → noAdjFree (meow_heap_free s ptr).1.blocks = true) ∧
    (s.initialized = true → (meow_heap_free s ptr).1.initialized = true) := by
  unfold meow_heap_free
  by_cases h0 : ptr = 0
  · rw [if_pos h0]; exact ⟨h, fun hn => hn, fun hi => hi⟩
  · rw [if_neg h0]
    by_cases hi : s.initialized = false
    · rw [if_pos hi]; exact ⟨h, fun hn => hn, fun hit => hit⟩
    · rw [if_neg hi]
      have hit : s.initialized = true := by
        cases hx : s.initialized
        · exact absurd hx hi
        · rfl
      by_cases hrange : ptr < MEOW_HEAP_START + HEADER_SIZE ∨ ptr ≥ MEOW_HEAP_END
      · rw [if_pos hrange]; exact ⟨h, fun hn => hn, fun _ => hit⟩
      · rw [if_neg hrange]
        cases hscan : freeScan (ptr - HEADER_SIZE) s.blocks with
        | notFound => exact ⟨h, fun hn => hn, fun _ => hit⟩
        | corrupted => exact ⟨h, fun hn => hn, fun _ => hit⟩
        | ok l2 =>
          obtain ⟨hwf1, hwf2, hwf3⟩ := (heapWF_init_iff _ hit).mp h
          refine ⟨?_, fun _ => mergeBlocks_noAdjFree l2, fun _ => hit⟩
          rw [heapWF_init_iff _ (by exact hit)]
          refine ⟨mergeBlocks_tiled _ _ ?_, mergeBlocks_magic _ ?_, ?_⟩
          · rw [freeScan_tiled _ _ _ _ hscan]; exact hwf1
          · exact freeScan_magic _ _ _ hwf2 hscan
          · rw [mergeBlocks_sum, freeScan_sum _ _ _ hscan]; exact hwf3

theorem meow_heap_realloc_WF (s : HeapState) (ptr newSize : Nat)
    (h : heapWF s = true) :
    heapWF (meow_heap_realloc s ptr newSize).1 = true ∧
    (noAdjFree s.blocks = true →
      noAdjFree (meow_heap_realloc s ptr newSize).1.blocks = true) ∧
    (s.initialized = true → (meow_heap_realloc s ptr newSize).1.initialized = true) := by
  unfold meow_heap_realloc
  by_cases h0 : ptr = 0
  · rw [if_pos h0]; exact meow_heap_alloc_WF s newSize h
  · rw [if_neg h0]
    by_cases hz : newSize = 0
    · rw [if_pos hz]
      obtain ⟨h1, h2, h3⟩ := meow_heap_free_WF s ptr h
      exact ⟨h1, h2, h3⟩
    · rw [if_neg hz]
      by_cases hmax : newSize > MEOW_HEAP_MAX_ALLOC_SIZE
      · rw [if_pos hmax]; exact ⟨h, fun hn => hn, fun hi => hi⟩
      · rw [if_neg hmax]
        by_cases hrange : ptr < MEOW_HEAP_START + HEADER_SIZE ∨ ptr ≥ MEOW_HEAP_END
        · rw [if_pos hrange]; exact ⟨h, fun hn => hn, fun hi => hi⟩
        · rw [if_neg hrange]
          cases hfind : s.blocks.find? (fun b => b.addr = ptr - HEADER_SIZE) with
          | none => simp only [hfind]; exact ⟨h, fun hn => hn, fun hi => hi⟩
          | some b =>
            simp only [hfind]
            by_cases hsh : meowHeapAlign newSize ≤ b.size
            · rw [if_pos hsh]; exact ⟨h, fun hn => hn, fun hi => hi⟩
            · rw [if_neg hsh]
              obtain ⟨ha1, ha2, ha3⟩ :=
                meow_heap_alloc_WF s (meowHeapAlign newSize) h
              cases halloc : meow_heap_alloc s (meowHeapAlign newSize) with
              | mk s1 r =>
                cases r with
                | none => rw [halloc] at ha1 ha2 ha3; exact ⟨ha1, ha2, ha3⟩
                | some p =>
                  rw [halloc] at ha1 ha2 ha3
                  obtain ⟨hf1, hf2, hf3⟩ := meow_heap_free_WF s1 ptr ha1
                  exact ⟨hf1, fun hn => hf2 (ha2 hn), fun hi => hf3 (ha3 hi)⟩

theorem meow_heap_calloc_WF (s : HeapState) (count size : Nat)
    (h : heapWF s = true) :
    heapWF (meow_heap_calloc s count size).1 = true ∧
    (noAdjFree s.blocks = true →
      noAdjFree (meow_heap_calloc s count size).1.blocks = true) ∧
    (s.initialized = true → (meow_heap_calloc s count size).1.initialized = true) := by
  unfold meow_heap_calloc
  by_cases hov : count ≠ 0 ∧ size > SIZE_MAX / count
  · rw [if_pos hov]; exact ⟨h, fun hn => hn, fun hi => hi⟩
  · rw [if_neg hov]; exact meow_heap_alloc_WF s _ h

/-- Every state reachable by the heap interface is initialized, well formed
and coalesced. -/
theorem heapReach_inv (s : HeapState) (h : HeapReach s) :
    s.initialized = true ∧ heapWF s = true ∧ noAdjFree s.blocks = true := by
  induction h with
  | init => exact ⟨rfl, by decide, by decide⟩
  | alloc size hs ih =>
    obtain ⟨hi, hw, hn⟩ := ih
    obtain ⟨h1, h2, h3⟩ := meow_heap_alloc_WF _ size hw
    exact ⟨h3 hi, h1, h2 hn⟩
  | free ptr hs ih =>
    obtain ⟨hi, hw, hn⟩ := ih
    obtain ⟨h1, h2, h3⟩ := meow_heap_free_WF _ ptr hw
    exact ⟨h3 hi, h1, h2 hn⟩
  | realloc ptr newSize hs ih =>
    obtain ⟨hi, hw, hn⟩ := ih
    obtain ⟨h1, h2, h3⟩ := meow_heap_realloc_WF _ ptr newSize hw
    exact ⟨h3 hi, h1, h2 hn⟩
  | calloc count size hs ih =>
    obtain ⟨hi, hw, hn⟩ := ih
    obtain ⟨h1, h2, h3⟩ := meow_heap_calloc_WF _ count size hw
    exact ⟨h3 hi, h1, h2 hn⟩

/-! ### Claim C2 -/

/-- C2: after every `meow_heap_free(ptr)` call on a reachable heap state that
returns success, no two adjacent free blocks coexist in the heap block list:
there is no block `b` such that both `b` and its successor are free and the
end of `b`'s payload (`b.addr + header size + b.size`) equals the successor's
address. -/
theorem C2_free_leaves_no_adjacent_free_blocks (s : HeapState) (ptr : Nat)
    (h : HeapReach s) (hok : (meow_heap_free s ptr).2 = MEOW_SUCCESS) :
    noAdjFree (meow_heap_free s ptr).1.blocks = true := by
  obtain ⟨hi, hw, hn⟩ := heapReach_inv s h
  unfold meow_heap_free at hok ⊢
  by_cases h0 : ptr = 0
  · rw [if_pos h0]
    exact hn
  · rw [if_neg h0] at hok ⊢
    rw [if_neg (show ¬s.initialized = false by rw [hi]; decide)] at hok ⊢
    by_cases hrange : ptr < MEOW_HEAP_START + HEADER_SIZE ∨ ptr ≥ MEOW_HEAP_END
    · rw [if_pos hrange] at hok
      have hbad : MM_ERROR_INVALID_ADDRESS = MEOW_SUCCESS := hok
      exact absurd hbad (by decide)
    · rw [if_neg hrange] at hok ⊢
      cases hscan : freeScan (ptr - HEADER_SIZE) s.blocks with
      | notFound =>
        rw [hscan] at hok
        have hbad : MM_ERROR_HEAP_CORRUPTION = MEOW_SUCCESS := hok
        exact absurd hbad (by decide)
      | corrupted =>
        rw [hscan] at hok
        have hbad : MM_ERROR_HEAP_CORRUPTION = MEOW_SUCCESS := hok
        exact absurd hbad (by decide)
      | ok l2 => exact mergeBlocks_noAdjFree l2

/-- Witness for C2: free the 100-byte allocation made right after init. -/
theorem C2_witness :
    (meow_heap_free heapS1 2097168).2 = MEOW_SUCCESS ∧
    noAdjFree (meow_heap_free heapS1 2097168).1.blocks = true :=
  ⟨by decide, C2_free_leaves_no_adjacent_free_blocks heapS1 2097168
    (HeapReach.alloc 100 HeapReach.init) (by decide)⟩

/-! ### Claim C3 -/

/-- C3 counterexample: in `heapS3` the block at 0x200074 is occupied and the
block physically preceding it (0x200000, payload end 0x200074) is free and
adjacent.  Freeing 0x200084 (the occupied block's payload) succeeds and the
merge pass running inside that same `meow_heap_free` call merges the freed
block with its free predecessor (and with the free tail), collapsing the
chain back to the single initial block — the pair does NOT remain unmerged
until a later pass, contrary to the claim. -/
theorem C3_counterexample :
    heapS3.blocks.map (fun b => (b.addr, b.size, b.occupied)) =
      [(2097152, 100, false), (2097268, 200, true), (2097484, 1048228, false)] ∧
    (meow_heap_free heapS3 2097284).2 = MEOW_SUCCESS ∧
    (meow_heap_free heapS3 2097284).1.blocks = [initialBlock] :=
  ⟨by decide, by decide, by decide⟩

/-- C3 (amended): the coalescing pass of `meow_heap_free` is global, not
one-directional: it walks the whole chain and merges every physically
adjacent pair of free blocks, so a free block immediately preceding the
freed block is merged during that same pass (first conjunct), and after the
pass no adjacent free pair survives anywhere in the chain (second
conjunct). -/
theorem C3_merge_is_global :
    (∀ (a b : HeapBlock) (rest : List HeapBlock),
      a.occupied = false → b.occupied = false →
      a.addr + HEADER_SIZE + a.size = b.addr →
      mergeBlocks (a :: b :: rest) =
        mergeBlocks ({ a with size := a.size + b.size + HEADER_SIZE } :: rest)) ∧
    (∀ l, noAdjFree (mergeBlocks l) = true) := by
  constructor
  · intro a b rest h1 h2 h3
    show mergeFrom a (b :: rest) = mergeFrom _ rest
    rw [mergeFrom, if_pos ⟨h1, h2, h3⟩]
  · exact mergeBlocks_noAdjFree

/-- Witness for the amended C3: a concrete free-free adjacent pair is merged
in one step of the pass. -/
theorem C3_witness :
    mergeBlocks
      [{ addr := 2097152, size := 100, occupied := false
       , magic := 51966, guard_front := 3735928559 },
       { addr := 2097268, size := 200, occupied := false
       , magic := 51966, guard_front := 3735928559 }] =
    mergeBlocks
      [{ addr := 2097152, size := 316, occupied := false
       , magic := 51966, guard_front := 3735928559 }] :=
  C3_merge_is_global.1 _ _ [] rfl rfl (by decide)

/-! ### Claim C4 -/

/-- C4: in every heap state reachable from a successful `meow_heap_init` by
any sequence of alloc/free/realloc/calloc calls, the sum over all blocks of
(block size + header size) equals the total heap region size (first
conjunct); the free-path merge preserves this sum (second conjunct) and the
alloc-path scan-and-split preserves it too (third conjunct). -/
theorem C4_block_sizes_sum_invariant :
    (∀ s, HeapReach s → sumBlocks s.blocks = MEOW_HEAP_SIZE_BYTES) ∧
    (∀ l, sumBlocks (mergeBlocks l) = sumBlocks l) ∧
    (∀ size l l' p, allocScan size l = .ok l' p → sumBlocks l' = sumBlocks l) := by
  refine ⟨fun s h => ?_, mergeBlocks_sum, allocScan_sum⟩
  obtain ⟨hi, hw, -⟩ := heapReach_inv s h
  exact ((heapWF_init_iff s hi).mp hw).2.2

/-- Witness for C4 at a concrete reachable state (init, two allocs, one
free). -/
theorem C4_witness : sumBlocks heapS3.blocks = MEOW_HEAP_SIZE_BYTES :=
  C4_block_sizes_sum_invariant.1 heapS3
    (HeapReach.free 2097168 (HeapReach.alloc 200 (HeapReach.alloc 100 HeapReach.init)))

/-! ### Claim C9 -/

/-- C9: `meow_heap_calloc(count, size)` detects multiplication overflow
before computing `count * size`: for every `count` and `size` (32-bit size_t
values) whose mathematical product does not fit in the unsigned size type,
it returns NULL with the heap state untouched. -/
theorem C9_calloc_overflow_guard (s : HeapState) (count size : Nat)
    (hc : count < UINT32_MOD) (hs : size < UINT32_MOD)
    (hover : count * size ≥ UINT32_MOD) :
    meow_heap_calloc s count size = (s, none) := by
  unfold meow_heap_calloc
  rw [if_pos]
  constructor
  · intro h0
    rw [h0] at hover
    simp at hover
    exact absurd hover (by decide)
  · by_contra hle
    push_neg at hle
    have h1 : count * size ≤ count * (SIZE_MAX / count) :=
      Nat.mul_le_mul_left _ hle
    have h2 : count * (SIZE_MAX / count) ≤ SIZE_MAX := by
      rw [Nat.mul_comm]
      exact Nat.div_mul_le_self _ _
    have h3 : SIZE_MAX < UINT32_MOD := by decide
    omega

/-- Witness for C9: 65536 * 65536 = 2^32 overflows size_t. -/
theorem C9_witness :
    (65536 : Nat) < UINT32_MOD ∧ (65536 : Nat) * 65536 ≥ UINT32_MOD ∧
    meow_heap_calloc heapInitial 65536 65536 = (heapInitial, none) :=
  ⟨by decide, by decide,
    C9_calloc_overflow_guard heapInitial 65536 65536 (by decide) (by decide) (by decide)⟩

/-! ### Claim C10 -/

/-- C10: calling `meow_heap_alloc` with a valid size (nonzero and at most
the maximum allocation size) on an uninitialized heap does not fail with a
not-initialized error: the allocator initializes the heap itself and serves
the request from the fresh heap, returning the first payload pointer
(heap start + header size) — in particular a non-NULL pointer. -/
theorem C10_alloc_autoinitializes (s : HeapState) (size : Nat)
    (hu : s.initialized = false) (h0 : size ≠ 0)
    (hmax : size ≤ MEOW_HEAP_MAX_ALLOC_SIZE) :
    (meow_heap_alloc s size).2 = some (MEOW_HEAP_START + HEADER_SIZE) ∧
    (meow_heap_alloc s size).1.initialized = true := by
  have hv : ¬(size = 0 ∨ size > MEOW_HEAP_MAX_ALLOC_SIZE) := by
    push_neg
    exact ⟨h0, hmax⟩
  obtain ⟨h16, hmaxa⟩ := asize_bounds size hv
  have hME := MEOW_HEAP_MAX_ALLOC_SIZE_eq
  have hMB := MEOW_HEAP_MIN_BLOCK_SIZE_eq
  unfold meow_heap_alloc
  rw [if_neg hv]
  have hstep : heapAutoInit s = { blocks := [initialBlock], initialized := true } := by
    unfold heapAutoInit meow_heap_init
    rw [if_pos hu, if_neg (by rw [hu]; exact Bool.false_ne_true)]
  rw [hstep]
  have hsz : initialBlock.size = 1048560 := rfl
  have haddr : initialBlock.addr = 2097152 := rfl
  have hocc : initialBlock.occupied = false := rfl
  have hscan : ∃ l, allocScan (max (meowHeapAlign size) MEOW_HEAP_MIN_BLOCK_SIZE)
      [initialBlock] = .ok l (initialBlock.addr + HEADER_SIZE) := by
    rw [allocScan]
    rw [if_pos ⟨hocc, by omega⟩]
    rw [if_pos (by rw [hsz]; have := HEADER_SIZE_eq; omega)]
    rw [if_neg ?hno]
    case hno =>
      have hmod : (initialBlock.addr + HEADER_SIZE +
          max (meowHeapAlign size) MEOW_HEAP_MIN_BLOCK_SIZE) % UINT32_MOD
          = initialBlock.addr + HEADER_SIZE +
            max (meowHeapAlign size) MEOW_HEAP_MIN_BLOCK_SIZE := by
        apply Nat.mod_eq_of_lt
        have := UINT32_MOD_eq
        have := HEADER_SIZE_eq
        omega
      rw [hmod]
      push_neg
      have := MEOW_HEAP_END_eq
      have := HEADER_SIZE_eq
      constructor <;> omega
    exact ⟨_, rfl⟩
  obtain ⟨l, hscan⟩ := hscan
  rw [hscan]
  exact ⟨rfl, rfl⟩

/-- Witness for C10: first allocation from the untouched initial state. -/
theorem C10_witness :
    heapInitial.initialized = false ∧ (100 : Nat) ≠ 0 ∧
    (100 : Nat) ≤ MEOW_HEAP_MAX_ALLOC_SIZE ∧
    (meow_heap_alloc heapInitial 100).2 = some (MEOW_HEAP_START + HEADER_SIZE) :=
  ⟨rfl, by decide, by decide,
    (C10_alloc_autoinitializes heapInitial 100 rfl (by decide) (by decide)).1⟩

/-! ### Claim C6 -/

/-- C6: on an initialized syscall table, `syscall_dispatcher` with an
out-of-table-range number returns the invalid-parameter error kind and
increments `invalid_calls`; when it dispatches to a registered handler it
returns the handler's result verbatim and increments `successful_calls` if
and only if the handler returned success, and `failed_calls` otherwise. -/
theorem C6_dispatcher_statistics (s : SyscallState) (num a1 a2 a3 a4 : Nat)
    (hinit : s.initialized = true) :
    (num ≥ MAX_SYSCALLS →
      (syscall_dispatcher s num a1 a2 a3 a4).2 = MEOW_ERROR_INVALID_PARAMETER ∧
      (syscall_dispatcher s num a1 a2 a3 a4).1.stats.invalid_calls
        = (s.stats.invalid_calls + 1) % UINT32_MOD) ∧
    (∀ h, num < MAX_SYSCALLS → (s.table num).implemented = true →
      (s.table num).handler = some h →
      (syscall_dispatcher s num a1 a2 a3 a4).2 = h a1 a2 a3 a4 ∧
      (h a1 a2 a3 a4 = MEOW_SUCCESS →
        (syscall_dispatcher s num a1 a2 a3 a4).1.stats.successful_calls
          = (s.stats.successful_calls + 1) % UINT32_MOD ∧
        (syscall_dispatcher s num a1 a2 a3 a4).1.stats.failed_calls
          = s.stats.failed_calls) ∧
      (h a1 a2 a3 a4 ≠ MEOW_SUCCESS →
        (syscall_dispatcher s num a1 a2 a3 a4).1.stats.failed_calls
          = (s.stats.failed_calls + 1) % UINT32_MOD ∧
        (syscall_dispatcher s num a1 a2 a3 a4).1.stats.successful_calls
          = s.stats.successful_calls)) := by
  have hni : ¬s.initialized = false := by rw [hinit]; decide
  constructor
  · intro hout
    unfold syscall_dispatcher
    rw [if_neg hni, if_pos hout]
    exact ⟨rfl, rfl⟩
  · intro h hin himpl hhandler
    unfold syscall_dispatcher
    rw [if_neg hni, if_neg (by omega),
      if_neg (by rw [himpl, hhandler]; simp)]
    simp only [hhandler]
    by_cases hres : h a1 a2 a3 a4 = MEOW_SUCCESS
    · rw [if_pos hres]
      exact ⟨rfl, fun _ => ⟨rfl, rfl⟩, fun hne => absurd hres hne⟩
    · rw [if_neg hres]
      exact ⟨rfl, fun heq => absurd heq hres, fun _ => ⟨rfl, rfl⟩⟩

/-- A concrete syscall table for the C6 witness: slot 0 holds a handler that
succeeds on argument 0 and fails otherwise. -/
def syscallS0 : SyscallState :=
  { table := fun n =>
      if n = 0 then
        { handler := some (fun a _ _ _ => if a = 0 then MEOW_SUCCESS else -1)
        , arg_count := 1, implemented := true }
      else { handler := none, arg_count := 0, implemented := false }
  , stats := { total_calls := 0, successful_calls := 0, failed_calls := 0
             , invalid_calls := 0, call_counts := fun _ => 0 }
  , initialized := true }

/-- Witness for C6: dispatch to the registered slot 0 of `syscallS0`. -/
theorem C6_witness :
    (syscall_dispatcher syscallS0 0 0 0 0 0).2 = MEOW_SUCCESS ∧
    (syscall_dispatcher syscallS0 0 0 0 0 0).1.stats.successful_calls
      = (syscallS0.stats.successful_calls + 1) % UINT32_MOD := by
  have hmain := (C6_dispatcher_statistics syscallS0 0 0 0 0 0 rfl).2
    (fun a _ _ _ => if a = 0 then MEOW_SUCCESS else -1)
    (by decide) rfl rfl
  exact ⟨hmain.1, (hmain.2.1 rfl).1⟩

/-! ### Territory-count lemmas for C7 -/

theorem countP_lt_range (r : Nat) :
    ∀ n, (List.range n).countP (fun t => decide (t < r)) = min r n := by
  intro n
  induction n with
  | zero => simp
  | succ n ih =>
    rw [List.range_succ, List.countP_append, ih]
    by_cases h : n < r
    · simp [List.countP_cons, h]
      omega
    · simp [List.countP_cons, h]
      omega

theorem countP_set_bit (t : Nat) (f : Nat → Bool) :
    ∀ n, t < n → f t = false →
    (List.range n).countP (fun u => if u = t then true else f u)
      = (List.range n).countP (fun u => f u) + 1 := by
  intro n
  induction n with
  | zero => intro h; omega
  | succ n ih =>
    intro hlt hf
    rw [List.range_succ, List.countP_append, List.countP_append]
    by_cases h : t = n
    · subst h
      have hpre : (List.range t).countP (fun u => if u = t then true else f u)
          = (List.range t).countP (fun u => f u) := by
        apply List.countP_congr
        intro u hu
        have : u < t := List.mem_range.mp hu
        simp [show ¬u = t by omega]
      rw [hpre]
      simp [List.countP_cons, hf]
    · have ht : t < n := by omega
      rw [ih ht hf]
      simp [List.countP_cons, show ¬n = t by omega]
      omega

theorem countP_clear_bit (t : Nat) (f : Nat → Bool) :
    ∀ n, t < n → f t = true →
    (List.range n).countP (fun u => if u = t then false else f u) + 1
      = (List.range n).countP (fun u => f u) := by
  intro n
  induction n with
  | zero => intro h; omega
  | succ n ih =>
    intro hlt hf
    rw [List.range_succ, List.countP_append, List.countP_append]
    by_cases h : t = n
    · subst h
      have hpre : (List.range t).countP (fun u => if u = t then false else f u)
          = (List.range t).countP (fun u => f u) := by
        apply List.countP_congr
        intro u hu
        have : u < t := List.mem_range.mp hu
        simp [show ¬u = t by omega]
      rw [hpre]
      simp [List.countP_cons, hf]
    · have ht : t < n := by omega
      have := ih ht hf
      simp only [List.countP_cons, show ¬n = t by omega, if_false]
      simp only [List.countP_nil]
      omega

/-- The counting invariant of the territory allocator. -/
def pmmInv (s : PmmState) : Prop :=
  s.occupied_territories = pmmBitCount s ∧
  s.occupied_territories ≤ s.total_territories

/-- Counting the init-time bitmap: bits below `reserved` are set, bits from
`reserved` to `total` are clear (bits at `total` and beyond are set but out
of range). -/
theorem countP_reserved (total reserved : Nat) (h : reserved ≤ total) :
    (List.range total).countP
      (fun t => decide (t < reserved) || decide (total ≤ t)) = reserved := by
  have hcongr : (List.range total).countP
      (fun t => decide (t < reserved) || decide (total ≤ t))
      = (List.range total).countP (fun t => decide (t < reserved)) := by
    apply List.countP_congr
    intro u hu
    have := List.mem_range.mp hu
    simp only [Bool.or_eq_true, decide_eq_true_eq]
    omega
  rw [hcongr, countP_lt_range]
  omega

theorem purr_memory_init_inv (memory_size kernel_end : Nat) :
    pmmInv (purr_memory_init memory_size kernel_end) := by
  have key : ∀ (T R : Nat), R ≤ T →
      T - (T - R) = (List.range T).countP
        (fun t => decide (t < R) || decide (T ≤ t)) := by
    intro T R h
    rw [countP_reserved T R h]
    omega
  unfold purr_memory_init
  by_cases h1 : memory_size = 0
  · rw [if_pos h1]; exact ⟨by decide, by decide⟩
  · rw [if_neg h1]
    by_cases h2 : memory_size < 8 * 1024 * 1024
    · rw [if_pos h2]; exact ⟨by decide, by decide⟩
    · rw [if_neg h2]
      by_cases h3 : memory_size / TERRITORY_SIZE = 0
      · rw [if_pos h3]; exact ⟨by decide, by decide⟩
      · rw [if_neg h3]
        by_cases h4 : (kernel_end + 4096 - 1) / 4096 * 4096 + 65536 +
            (min (memory_size / TERRITORY_SIZE) MAX_TERRITORIES + 31) / 32 * 4
            > memory_size
        · rw [if_pos h4]; exact ⟨by decide, by decide⟩
        · rw [if_neg h4]
          exact ⟨key _ _ (Nat.min_le_right _ _), Nat.sub_le _ _⟩

theorem purr_alloc_territory_inv (s : PmmState) (h : pmmInv s) :
    pmmInv (purr_alloc_territory s).1 := by
  obtain ⟨h1, h2⟩ := h
  unfold purr_alloc_territory
  by_cases hi : s.initialized = false
  · rw [if_pos hi]; exact ⟨h1, h2⟩
  · rw [if_neg hi]
    by_cases hfull : s.occupied_territories ≥ s.total_territories
    · rw [if_pos hfull]; exact ⟨h1, h2⟩
    · rw [if_neg hfull]
      cases hscan : pmmScan s.bitmap s.reserved_territories s.total_territories with
      | none => exact ⟨h1, h2⟩
      | some t =>
        have hmem := List.mem_range.mp (List.mem_of_find?_eq_some hscan)
        have hcond := List.find?_some hscan
        simp only [Bool.and_eq_true, decide_eq_true_eq] at hcond
        constructor
        · show s.occupied_territories + 1 =
            (List.range s.total_territories).countP
              (fun u => if u = t then true else s.bitmap u)
          rw [countP_set_bit t s.bitmap s.total_territories hmem hcond.2]
          unfold pmmBitCount at h1
          omega
        · show s.occupied_territories + 1 ≤ s.total_territories
          omega

theorem purr_free_territory_inv (s : PmmState) (a : Nat) (h : pmmInv s) :
    pmmInv (purr_free_territory s a) := by
  obtain ⟨h1, h2⟩ := h
  unfold purr_free_territory
  split_ifs with g1 g2 g3 g4 g5
  · exact ⟨h1, h2⟩
  · exact ⟨h1, h2⟩
  · exact ⟨h1, h2⟩
  · exact ⟨h1, h2⟩
  · exact ⟨h1, h2⟩
  · push_neg at g3
    have hlt : a / TERRITORY_SIZE < s.total_territories := g3
    have hset : s.bitmap (a / TERRITORY_SIZE) = true := by
      cases hx : s.bitmap (a / TERRITORY_SIZE)
      · exact absurd hx g5
      · rfl
    have hcount := countP_clear_bit (a / TERRITORY_SIZE) s.bitmap
      s.total_territories hlt hset
    constructor
    · show s.occupied_territories - 1 =
        (List.range s.total_territories).countP
          (fun u => if u = a / TERRITORY_SIZE then false else s.bitmap u)
      unfold pmmBitCount at h1
      omega
    · show s.occupied_territories - 1 ≤ s.total_territories
      omega

/-! ### Claim C7 -/

/-- C7: in every territory-allocator state reachable after a successful init
by any sequence of alloc and free calls, the occupied count recorded in the
counter equals the number of set bits in the bitmap (every bit flip is
paired with exactly one increment or decrement), the occupied count never
exceeds the total count, and the counts reported by `get_purr_memory_stats`
satisfy occupied + free = total. -/
theorem C7_pmm_counts (s : PmmState) (h : PmmReach s) :
    s.occupied_territories = pmmBitCount s ∧
    s.occupied_territories ≤ s.total_territories ∧
    (get_purr_memory_stats s).2.1 + (get_purr_memory_stats s).2.2
      = (get_purr_memory_stats s).1 := by
  have hinv : pmmInv s := by
    induction h with
    | init m k hm => exact purr_memory_init_inv m k
    | alloc hs ih => exact purr_alloc_territory_inv _ ih
    | free a hs ih => exact purr_free_territory_inv _ a ih
  obtain ⟨h1, h2⟩ := hinv
  refine ⟨h1, h2, ?_⟩
  unfold get_purr_memory_stats
  cases hi : s.initialized <;> simp <;> omega

/-- Witness for C7: the allocator right after a successful 8MB init. -/
theorem C7_witness :
    pmmS0.occupied_territories = pmmBitCount pmmS0 ∧
    pmmS0.occupied_territories ≤ pmmS0.total_territories ∧
    (get_purr_memory_stats pmmS0).2.1 + (get_purr_memory_stats pmmS0).2.2
      = (get_purr_memory_stats pmmS0).1 :=
  C7_pmm_counts pmmS0 (PmmReach.init 8388608 1048576 (by decide))

/-! ### Claim C8 -/

/-- C8 counterexample: right after a successful init (a reachable state in
which no alloc has ever been performed, so no address was ever returned by
`purr_alloc_territory`, and nothing was ever freed), freeing address 4096 —
territory 1, which lies inside the reserved region, so `purr_alloc_territory`
can never return it (it scans only from `reserved_territories` = 272 up) —
is NOT a no-op: it clears the reserved territory's bit and decrements the
occupied count from 272 to 271. -/
theorem C8_counterexample :
    pmmS0.initialized = true ∧
    pmmS0.reserved_territories = 272 ∧
    pmmS0.bitmap 1 = true ∧
    pmmS0.occupied_territories = 272 ∧
    (purr_free_territory pmmS0 4096).occupied_territories = 271 ∧
    (purr_free_territory pmmS0 4096).bitmap 1 = false :=
  ⟨by decide, by decide, by decide, by decide, by decide, by decide⟩

/-- C8 (amended): `purr_free_territory` is a no-op exactly on the guarded
paths — uninitialized allocator, NULL (zero) address, out-of-range territory
index, or a territory whose bit is already clear (double-free); it leaves
the whole state (bitmap and occupied count) unchanged there.  An in-range
address whose bit is set is freed even if it was never returned by
`purr_alloc_territory` (for example a reserved territory), clearing the bit
and decrementing the count. -/
theorem C8_free_noop_on_guarded_paths (s : PmmState) (a : Nat)
    (h : s.initialized = false ∨ a = 0 ∨
      a / TERRITORY_SIZE ≥ s.total_territories ∨
      s.bitmap (a / TERRITORY_SIZE) = false) :
    purr_free_territory s a = s := by
  unfold purr_free_territory
  by_cases g1 : s.initialized = false
  · rw [if_pos g1]
  · rw [if_neg g1]
    by_cases g2 : a = 0
    · rw [if_pos g2]
    · rw [if_neg g2]
      by_cases g3 : a / TERRITORY_SIZE ≥ s.total_territories
      · rw [if_pos g3]
      · rw [if_neg g3]
        by_cases g4 : a / TERRITORY_SIZE / 32 ≥ (s.total_territories + 31) / 32
        · rw [if_pos g4]
        · rw [if_neg g4]
          have g5 : s.bitmap (a / TERRITORY_SIZE) = false := by
            rcases h with h | h | h | h
            · exact absurd h g1
            · exact absurd h g2
            · exact absurd h g3
            · exact h
          rw [if_pos g5]

/-- Witness for the amended C8: freeing from the uninitialized allocator. -/
theorem C8_witness : purr_free_territory pmmUninit 4096 = pmmUninit :=
  C8_free_noop_on_guarded_paths pmmUninit 4096 (Or.inl rfl)

/-! ### Round-trip lemmas for C1 -/

theorem magicAll_mem (l : List HeapBlock) (h : magicAll l = true)
    (b : HeapBlock) (hb : b ∈ l) : b.magic = MEOW_HEAP_MAGIC_VALUE := by
  simp only [magicAll, List.all_eq_true, decide_eq_true_eq] at h
  exact h b hb

theorem heapAutoInit_initialized (s : HeapState) :
    (heapAutoInit s).initialized = true := by
  unfold heapAutoInit
  by_cases hi : s.initialized = false
  · rw [if_pos hi]
    unfold meow_heap_init
    rw [if_neg (by rw [hi]; decide)]
  · rw [if_neg hi]
    cases hx : s.initialized
    · exact absurd hx hi
    · rfl

/-- A failed allocation on an initialized heap leaves the state untouched. -/
theorem meow_heap_alloc_none_of_init (s : HeapState) (size : Nat)
    (hi : s.initialized = true) (h : (meow_heap_alloc s size).2 = none) :
    (meow_heap_alloc s size).1 = s := by
  have hauto : heapAutoInit s = s := by
    unfold heapAutoInit
    rw [if_neg (by rw [hi]; decide)]
  unfold meow_heap_alloc at h ⊢
  by_cases hv : size = 0 ∨ size > MEOW_HEAP_MAX_ALLOC_SIZE
  · rw [if_pos hv]
  · rw [if_neg hv] at h ⊢
    cases hscan : allocScan (max (meowHeapAlign size) MEOW_HEAP_MIN_BLOCK_SIZE)
        (heapAutoInit s).blocks with
    | noBlock => exact hauto
    | splitOverflow => exact hauto
    | ok l p => rw [hscan] at h; cases h

/-- A failed allocation never changes the set of occupied blocks (even when
it auto-initializes the heap, the fresh chain has no occupied block). -/
theorem meow_heap_alloc_fail_occ (s : HeapState) (size : Nat)
    (hWF : heapWF s = true) (h : (meow_heap_alloc s size).2 = none) :
    occBlocks (meow_heap_alloc s size).1.blocks = occBlocks s.blocks := by
  obtain ⟨-, -, hocc, -⟩ := heapAutoInit_props s hWF
  unfold meow_heap_alloc at h ⊢
  by_cases hv : size = 0 ∨ size > MEOW_HEAP_MAX_ALLOC_SIZE
  · rw [if_pos hv]
  · rw [if_neg hv] at h ⊢
    cases hscan : allocScan (max (meowHeapAlign size) MEOW_HEAP_MIN_BLOCK_SIZE)
        (heapAutoInit s).blocks with
    | noBlock => exact hocc
    | splitOverflow => exact hocc
    | ok l p => rw [hscan] at h; cases h

theorem freeScan_after_mark (pre : List HeapBlock) (B B1 : HeapBlock)
    (restX : List HeapBlock) (hB1a : B1.addr = B.addr) (hB1o : B1.occupied = true)
    (hB1m : B1.magic = MEOW_HEAP_MAGIC_VALUE)
    (hpre : ∀ b ∈ pre, b.addr ≠ B.addr) :
    freeScan B.addr (pre ++ B1 :: restX)
      = .ok (pre ++ { B1 with occupied := false } :: restX) := by
  rw [freeScan_past_misses B.addr pre (B1 :: restX) hpre]
  rw [freeScan, if_pos hB1a, if_pos ⟨hB1o, hB1m⟩]

/-- Freeing the pointer just returned by a successful allocation restores
the set of occupied blocks of the pre-allocation heap (and succeeds). -/
theorem alloc_free_occ_roundtrip (s : HeapState) (size p : Nat)
    (s1 : HeapState) (hWF : heapWF s = true)
    (h : meow_heap_alloc s size = (s1, some p)) :
    (meow_heap_free s1 p).2 = MEOW_SUCCESS ∧
    occBlocks (meow_heap_free s1 p).1.blocks = occBlocks s.blocks := by
  obtain ⟨hWFi, hinit, hoccpres, -⟩ := heapAutoInit_props s hWF
  obtain ⟨ht, hmg, hsum⟩ := (heapWF_init_iff _ hinit).mp hWFi
  have hST := MEOW_HEAP_START_eq
  have hEN := MEOW_HEAP_END_eq
  have hHS := HEADER_SIZE_eq
  have hMB := MEOW_HEAP_MIN_BLOCK_SIZE_eq
  have hSZ : MEOW_HEAP_SIZE_BYTES = 1048576 := rfl
  unfold meow_heap_alloc at h
  by_cases hv : size = 0 ∨ size > MEOW_HEAP_MAX_ALLOC_SIZE
  · rw [if_pos hv] at h
    simp at h
  · rw [if_neg hv] at h
    obtain ⟨h16, hmaxa⟩ := asize_bounds size hv
    cases hscan : allocScan (max (meowHeapAlign size) MEOW_HEAP_MIN_BLOCK_SIZE)
        (heapAutoInit s).blocks with
    | noBlock => rw [hscan] at h; simp at h
    | splitOverflow => rw [hscan] at h; simp at h
    | ok l q =>
      rw [hscan] at h
      have hs1 : ({ heapAutoInit s with blocks := l } : HeapState) = s1 :=
        congrArg Prod.fst h
      have hp : q = p := Option.some_inj.mp (congrArg Prod.snd h)
      subst hp
      have hblocks : s1.blocks = l := by rw [← hs1]
      have hinit1 : s1.initialized = true := by
        rw [← hs1]
        exact heapAutoInit_initialized s
      obtain ⟨pre, B, post, hl, hBocc, hBsz, hq, hcase⟩ :=
        allocScan_decomp _ _ l q hscan
      -- address bounds for the found block
      have hBmem : B ∈ (heapAutoInit s).blocks := by
        rw [hl]
        exact List.mem_append_right pre (List.mem_cons_self B post)
      obtain ⟨hBlo, hBhi⟩ := tiledFrom_mem_bounds _ _ ht B hBmem
      rw [hsum] at hBhi
      -- the prefix addresses all lie strictly below B's address
      have hpren : ∀ b ∈ pre, b.addr ≠ B.addr := by
        have htl := ht
        rw [hl, tiledFrom_append, Bool.and_eq_true] at htl
        have hBaddr : B.addr = MEOW_HEAP_START + sumBlocks pre := by
          have h2 := htl.2
          rw [tiledFrom] at h2
          simp only [Bool.and_eq_true, decide_eq_true_eq] at h2
          exact h2.1
        intro b hb
        obtain ⟨hblo, hbhi⟩ := tiledFrom_mem_bounds _ _ htl.1 b hb
        omega
      have hBm : B.magic = MEOW_HEAP_MAGIC_VALUE := magicAll_mem _ hmg B hBmem
      have hBsz16 : MEOW_HEAP_MIN_BLOCK_SIZE ≤ B.size := le_trans h16 hBsz
      -- the free call on the returned pointer
      have hq16 : q - HEADER_SIZE = B.addr := by omega
      unfold meow_heap_free
      rw [if_neg (show ¬q = 0 by omega)]
      rw [if_neg (show ¬s1.initialized = false by rw [hinit1]; decide)]
      rw [if_neg (show ¬(q < MEOW_HEAP_START + HEADER_SIZE ∨ q ≥ MEOW_HEAP_END) by
        push_neg
        omega)]
      rw [hq16, hblocks]
      rcases hcase with ⟨hl2, hsplit⟩ | ⟨hl2, hsplit⟩
      · -- split case: the found block was cut in two
        rw [hl2, freeScan_after_mark pre B { B with size := max (meowHeapAlign size) MEOW_HEAP_MIN_BLOCK_SIZE, occupied := true } (splitRemainder B (max (meowHeapAlign size) MEOW_HEAP_MIN_BLOCK_SIZE) :: post) rfl rfl hBm hpren]
        refine ⟨rfl, ?_⟩
        show occBlocks (mergeBlocks _) = occBlocks s.blocks
        rw [mergeBlocks_occ]
        rw [← hoccpres, hl]
        rw [occBlocks_append, occBlocks_append]
        rw [occBlocks_cons, occBlocks_cons, occBlocks_cons]
        simp [hBocc, splitRemainder]
      · -- no-split case: the block was handed over whole
        rw [hl2, freeScan_after_mark pre B { B with occupied := true } post
          rfl rfl hBm hpren]
        refine ⟨rfl, ?_⟩
        show occBlocks (mergeBlocks _) = occBlocks s.blocks
        rw [mergeBlocks_occ]
        rw [← hoccpres, hl]
        rw [occBlocks_append, occBlocks_append]
        rw [occBlocks_cons, occBlocks_cons]
        simp [hBocc]

/-- A territory allocation that reports failure (address 0) on an allocator
whose reserved region is nonempty did not change the allocator state. -/
theorem purr_alloc_zero_eq (s : PmmState) (hres : 1 ≤ s.reserved_territories)
    (h : (purr_alloc_territory s).2 = 0) : (purr_alloc_territory s).1 = s := by
  unfold purr_alloc_territory at h ⊢
  by_cases hi : s.initialized = false
  · rw [if_pos hi]
  · rw [if_neg hi] at h ⊢
    by_cases hfull : s.occupied_territories ≥ s.total_territories
    · rw [if_pos hfull]
    · rw [if_neg hfull] at h ⊢
      cases hscan : pmmScan s.bitmap s.reserved_territories s.total_territories with
      | none => rfl
      | some t =>
        rw [hscan] at h
        have hcond := List.find?_some hscan
        simp only [Bool.and_eq_true, decide_eq_true_eq] at hcond
        have ht0 : t = 0 := by
          have : t * TERRITORY_SIZE = 0 := h
          have hT : TERRITORY_SIZE = 4096 := rfl
          by_contra hne
          have : t * TERRITORY_SIZE ≥ TERRITORY_SIZE :=
            Nat.le_mul_of_pos_left _ (by omega)
          omega
        omega

/-- `purr_free_territory` on an in-range set bit decrements the counter. -/
theorem purr_free_set_bit (s2 : PmmState) (addr : Nat)
    (hi : s2.initialized = true) (h0 : addr ≠ 0)
    (hlt : addr / TERRITORY_SIZE < s2.total_territories)
    (hbit : s2.bitmap (addr / TERRITORY_SIZE) = true) :
    (purr_free_territory s2 addr).occupied_territories
      = s2.occupied_territories - 1 := by
  unfold purr_free_territory
  rw [if_neg (show ¬s2.initialized = false by rw [hi]; decide)]
  rw [if_neg h0]
  rw [if_neg (show ¬addr / TERRITORY_SIZE ≥ s2.total_territories by omega)]
  rw [if_neg (show ¬(addr / TERRITORY_SIZE / 32 ≥
    (s2.total_territories + 31) / 32) by omega)]
  rw [if_neg (show ¬s2.bitmap (addr / TERRITORY_SIZE) = false by
    rw [hbit]; decide)]

/-- Freeing the territory just allocated restores the occupied count. -/
theorem purr_alloc_free_occ (s : PmmState)
    (h : (purr_alloc_territory s).2 ≠ 0) :
    (purr_free_territory (purr_alloc_territory s).1
        (purr_alloc_territory s).2).occupied_territories
      = s.occupied_territories := by
  unfold purr_alloc_territory at h ⊢
  by_cases hi : s.initialized = false
  · rw [if_pos hi] at h
    exact absurd rfl h
  · rw [if_neg hi] at h ⊢
    have hit : s.initialized = true := by
      cases hx : s.initialized
      · exact absurd hx hi
      · rfl
    by_cases hfull : s.occupied_territories ≥ s.total_territories
    · rw [if_pos hfull] at h
      exact absurd rfl h
    · rw [if_neg hfull] at h ⊢
      cases hscan : pmmScan s.bitmap s.reserved_territories s.total_territories with
      | none => rw [hscan] at h; exact absurd rfl h
      | some t =>
        rw [hscan] at h
        have hmem := List.mem_range.mp (List.mem_of_find?_eq_some hscan)
        have hT : TERRITORY_SIZE = 4096 := rfl
        have htdiv : t * TERRITORY_SIZE / TERRITORY_SIZE = t :=
          Nat.mul_div_cancel t (by rw [hT]; omega)
        have hstep := purr_free_set_bit ({ s with bitmap := (fun u => if u = t then true else s.bitmap u), occupied_territories := s.occupied_territories + 1 }) (t * TERRITORY_SIZE) hit h (by simpa [htdiv] using hmem) (by simp [htdiv])
        rw [hstep]
        show s.occupied_territories + 1 - 1 = s.occupied_territories
        omega

theorem meow_heap_alloc_some_init (s : HeapState) (size : Nat)
    (s1 : HeapState) (p : Nat) (h : meow_heap_alloc s size = (s1, some p)) :
    s1.initialized = true := by
  unfold meow_heap_alloc at h
  by_cases hv : size = 0 ∨ size > MEOW_HEAP_MAX_ALLOC_SIZE
  · rw [if_pos hv] at h
    simp at h
  · rw [if_neg hv] at h
    cases hscan : allocScan (max (meowHeapAlign size) MEOW_HEAP_MIN_BLOCK_SIZE)
        (heapAutoInit s).blocks with
    | noBlock => rw [hscan] at h; simp at h
    | splitOverflow => rw [hscan] at h; simp at h
    | ok l q =>
      rw [hscan] at h
      have hs1 : ({ heapAutoInit s with blocks := l } : HeapState) = s1 :=
        congrArg Prod.fst h
      rw [← hs1]
      exact heapAutoInit_initialized s

/-! ### Claim C1 -/

/-- C1: every `task_create` call with non-null name and entry that fails
(returns 0) because a resource allocation failed releases everything it
had acquired before returning: the territory occupied count, the set of
occupied heap blocks and the task table are unchanged after the failed call.
(`task_setup_initial_context` always returns MEOW_SUCCESS in the source, so
the context-setup-failure case named by the claim is dead code; all live
failure paths are covered.)  The hypotheses `heapWF` and the nonempty
reserved region / nonzero next pid hold in every state the kernel actually
reaches (heap states produced by the allocator itself, `reserved >= 16`
after any successful init, `next_pid` starting at 1 and only incremented). -/
theorem C1_task_create_no_partial_leak (K : KernelState) (name : Option String)
    (entry_point arg : Nat) (priority : TaskPriority) (stack_size ticks : Nat)
    (hname : name.isSome = true) (hentry : entry_point ≠ 0)
    (hheap : heapWF K.heap = true) (hres : 1 ≤ K.pmm.reserved_territories)
    (hpid : K.next_pid ≠ 0)
    (hfail : (task_create K name entry_point arg priority stack_size ticks).2 = 0) :
    (task_create K name entry_point arg priority stack_size ticks).1.pmm.occupied_territories
      = K.pmm.occupied_territories ∧
    occBlocks (task_create K name entry_point arg priority stack_size ticks).1.heap.blocks
      = occBlocks K.heap.blocks ∧
    (task_create K name entry_point arg priority stack_size ticks).1.task_table
      = K.task_table := by
  have hn : ¬name.isNone = true := by
    cases name
    · simp at hname
    · simp
  unfold task_create at hfail ⊢
  rw [if_neg hn] at hfail ⊢
  rw [if_neg hentry] at hfail ⊢
  cases hslot : find_free_task_slot K.task_table with
  | none =>
    simp only [hslot] at hfail ⊢
    exact ⟨by simp, by simp, by simp⟩
  | some i =>
    simp only [hslot] at hfail ⊢
    cases halloc : purr_alloc_territory K.pmm with
    | mk pmm1 tid =>
      simp only [halloc] at hfail ⊢
      by_cases htid : tid = 0
      · rw [if_pos htid] at hfail ⊢
        have hpmm : pmm1 = K.pmm := by
          have h2 := purr_alloc_zero_eq K.pmm hres (by rw [halloc]; exact htid)
          rw [halloc] at h2
          exact h2
        refine ⟨?_, rfl, rfl⟩
        show pmm1.occupied_territories = K.pmm.occupied_territories
        rw [hpmm]
      · rw [if_neg htid] at hfail ⊢
        have hpmmrt : (purr_free_territory pmm1 tid).occupied_territories
            = K.pmm.occupied_territories := by
          have h2 := purr_alloc_free_occ K.pmm (by rw [halloc]; exact htid)
          rw [halloc] at h2
          exact h2
        cases hstack : meow_heap_alloc K.heap
            (if stack_size = 0 then TASK_STACK_SIZE else stack_size) with
        | mk heap1 sp =>
          simp only [hstack] at hfail ⊢
          cases sp with
          | none =>
            refine ⟨hpmmrt, ?_, rfl⟩
            show occBlocks heap1.blocks = occBlocks K.heap.blocks
            have h3 := meow_heap_alloc_fail_occ K.heap
              (if stack_size = 0 then TASK_STACK_SIZE else stack_size) hheap
              (by rw [hstack])
            rw [hstack] at h3
            exact h3
          | some stack_base =>
            have hinit1 : heap1.initialized = true :=
              meow_heap_alloc_some_init K.heap _ heap1 stack_base hstack
            cases hctx : meow_heap_alloc heap1 CPU_CONTEXT_SIZE with
            | mk heap2 cp =>
              simp only [hctx] at hfail ⊢
              cases cp with
              | none =>
                refine ⟨hpmmrt, ?_, rfl⟩
                show occBlocks (meow_heap_free heap2 stack_base).1.blocks
                  = occBlocks K.heap.blocks
                have hh2 : heap2 = heap1 := by
                  have h4 := meow_heap_alloc_none_of_init heap1 CPU_CONTEXT_SIZE
                    hinit1 (by rw [hctx])
                  rw [hctx] at h4
                  exact h4
                rw [hh2]
                exact (alloc_free_occ_roundtrip K.heap _ stack_base heap1
                  hheap hstack).2
              | some context =>
                -- the context-setup check never fires, so this is the
                -- success path: it returns the fresh (nonzero) pid
                have hfail2 : K.next_pid = 0 := hfail
                exact absurd hfail2 hpid

/-- A kernel state for the C1 witness: empty task table, uninitialized
heap, territory allocator that cannot serve an allocation. -/
def kernelW : KernelState :=
  { pmm := { pmmUninit with reserved_territories := 1 }
  , heap := heapInitial
  , task_table := List.replicate 64 unusedSlot
  , next_pid := 1
  , current_task := none
  , ready_queue := [] }

/-- Witness for C1: creating a task while the territory allocator cannot
deliver fails with everything unchanged. -/
theorem C1_witness :
    (some "worker" : Option String).isSome = true ∧ (1 : Nat) ≠ 0 ∧
    heapWF kernelW.heap = true ∧ 1 ≤ kernelW.pmm.reserved_territories ∧
    kernelW.next_pid ≠ 0 ∧
    (task_create kernelW (some "worker") 1 0 TaskPriority.normal 0 0).2 = 0 ∧
    (task_create kernelW (some "worker") 1 0 TaskPriority.normal 0 0).1.task_table
      = kernelW.task_table :=
  ⟨rfl, by decide, by decide, by decide, by decide, by decide,
    (C1_task_create_no_partial_leak kernelW (some "worker") 1 0
      TaskPriority.normal 0 0 rfl (by decide) (by decide) (by decide)
      (by decide) (by decide)).2.2⟩

/-! ### Scheduler scan lemmas for C5 -/

/-- Loop invariant of the first `select_next_task` pass over positions
`< n`: with no candidate yet, `highest_priority` still holds its initial
PRIORITY_IDLE value and every READY task seen has priority 0; with a
candidate, it is the READY task with the maximum priority seen so far
(strictly positive, since the comparison is strict against the initial 0)
and the first one carrying that maximum. -/
def selectInv (tl : List TaskSlot) (n : Nat) : Option Nat → Nat → Prop
  | none, highest => highest = 0 ∧
      ∀ k sk, k < n → tl.get? k = some sk → sk.state = .ready →
        sk.priority.toNat = 0
  | some j, highest => j < n ∧ 0 < highest ∧
      (∃ sj, tl.get? j = some sj ∧ sj.state = .ready ∧
        sj.priority.toNat = highest) ∧
      (∀ k sk, k < n → tl.get? k = some sk → sk.state = .ready →
        sk.priority.toNat ≤ highest) ∧
      (∀ k sk, k < n → tl.get? k = some sk → sk.state = .ready →
        sk.priority.toNat = highest → j ≤ k)

theorem selectFirstPass_inv :
    ∀ (l : List TaskSlot) (i : Nat) (best : Option Nat) (highest : Nat)
      (tl : List TaskSlot),
      tl.length = i + l.length →
      (∀ m, l.get? m = tl.get? (i + m)) →
      selectInv tl i best highest →
      ∃ highest2, selectInv tl tl.length (selectFirstPass l i best highest)
        highest2 := by
  intro l
  induction l with
  | nil =>
    intro i best highest tl hlen hsuf hinv
    rw [selectFirstPass]
    refine ⟨highest, ?_⟩
    have : tl.length = i := by simpa using hlen
    rw [this]
    exact hinv
  | cons t rest ih =>
    intro i best highest tl hlen hsuf hinv
    have hti : tl.get? i = some t := by
      have h0 := hsuf 0
      simpa using h0.symm
    have hsuf2 : ∀ m, rest.get? m = tl.get? (i + 1 + m) := by
      intro m
      have := hsuf (m + 1)
      simpa [show i + (m + 1) = i + 1 + m by omega] using this
    have hlen2 : tl.length = i + 1 + rest.length := by
      simp at hlen
      omega
    rw [selectFirstPass]
    by_cases hc : t.state = TaskState.ready ∧ t.priority.toNat > highest
    · rw [if_pos hc]
      apply ih (i + 1) (some i) t.priority.toNat tl hlen2 hsuf2
      refine ⟨by omega, by omega, ⟨t, hti, hc.1, rfl⟩, ?_, ?_⟩
      · intro k sk hk hget hready
        by_cases hki : k = i
        · subst hki
          rw [hti] at hget
          cases hget
          exact le_refl _
        · have hklt : k < i := by omega
          cases best with
          | none =>
            have := hinv.2 k sk hklt hget hready
            omega
          | some j =>
            have := hinv.2.2.2.1 k sk hklt hget hready
            omega
      · intro k sk hk hget hready hpe
        by_cases hki : k = i
        · omega
        · have hklt : k < i := by omega
          cases best with
          | none =>
            have := hinv.2 k sk hklt hget hready
            omega
          | some j =>
            have := hinv.2.2.2.1 k sk hklt hget hready
            omega
    · rw [if_neg hc]
      apply ih (i + 1) best highest tl hlen2 hsuf2
      cases best with
      | none =>
        obtain ⟨hh0, hall⟩ := hinv
        refine ⟨hh0, ?_⟩
        intro k sk hk hget hready
        by_cases hki : k = i
        · subst hki
          rw [hti] at hget
          cases hget
          have : ¬t.priority.toNat > highest := fun hgt => hc ⟨hready, hgt⟩
          omega
        · exact hall k sk (by omega) hget hready
      | some j =>
        obtain ⟨hj, hpos, hex, hmax, htie⟩ := hinv
        refine ⟨by omega, hpos, hex, ?_, ?_⟩
        · intro k sk hk hget hready
          by_cases hki : k = i
          · subst hki
            rw [hti] at hget
            cases hget
            have : ¬t.priority.toNat > highest := fun hgt => hc ⟨hready, hgt⟩
            omega
          · exact hmax k sk (by omega) hget hready
        · intro k sk hk hget hready hpe
          by_cases hki : k = i
          · omega
          · exact htie k sk (by omega) hget hready hpe

theorem selectSecondPass_spec :
    ∀ (l : List TaskSlot) (i : Nat) (tl : List TaskSlot),
      tl.length = i + l.length →
      (∀ m, l.get? m = tl.get? (i + m)) →
      (match selectSecondPass l i with
       | some j => i ≤ j ∧ ∃ sj, tl.get? j = some sj ∧
           sj.state = .ready ∧ sj.priority = .idle ∧
           ∀ k sk, i ≤ k → k < j → tl.get? k = some sk →
             ¬(sk.state = .ready ∧ sk.priority = .idle)
       | none => ∀ k sk, i ≤ k → tl.get? k = some sk →
           ¬(sk.state = .ready ∧ sk.priority = .idle)) := by
  intro l
  induction l with
  | nil =>
    intro i tl hlen hsuf
    rw [selectSecondPass]
    intro k sk hik hget hcon
    have hlen2 : tl.length = i := by simpa using hlen
    have : k < tl.length := by
      by_contra hge
      push_neg at hge
      rw [List.get?_eq_none.mpr hge] at hget
      cases hget
    omega
  | cons t rest ih =>
    intro i tl hlen hsuf
    have hti : tl.get? i = some t := by
      have h0 := hsuf 0
      simpa using h0.symm
    have hsuf2 : ∀ m, rest.get? m = tl.get? (i + 1 + m) := by
      intro m
      have := hsuf (m + 1)
      simpa [show i + (m + 1) = i + 1 + m by omega] using this
    have hlen2 : tl.length = i + 1 + rest.length := by
      simp at hlen
      omega
    rw [selectSecondPass]
    by_cases hc : t.state = TaskState.ready ∧ t.priority = TaskPriority.idle
    · rw [if_pos hc]
      exact ⟨le_refl i, t, hti, hc.1, hc.2, fun k sk hik hkj hget => by omega⟩
    · rw [if_neg hc]
      have hrec := ih (i + 1) tl hlen2 hsuf2
      cases hsp : selectSecondPass rest (i + 1) with
      | some j =>
        rw [hsp] at hrec
        obtain ⟨hij, sj, hsj, hready, hidle, hfirst⟩ := hrec
        refine ⟨by omega, sj, hsj, hready, hidle, ?_⟩
        intro k sk hik hkj hget hcon
        by_cases hki : k = i
        · subst hki
          rw [hti] at hget
          cases hget
          exact hc hcon
        · exact hfirst k sk (by omega) hkj hget hcon
      | none =>
        rw [hsp] at hrec
        intro k sk hik hget hcon
        by_cases hki : k = i
        · subst hki
          rw [hti] at hget
          cases hget
          exact hc hcon
        · exact hrec k sk (by omega) hget hcon

/-- PRIORITY_IDLE is the only priority with enum value 0. -/
theorem priority_toNat_eq_zero (p : TaskPriority) :
    p.toNat = 0 ↔ p = .idle := by
  cases p <;> simp [TaskPriority.toNat]

/-! ### Claim C5 -/

/-- C5: whenever at least one task-table entry is READY, `select_next_task`
returns a READY entry whose priority value is maximal among all READY
entries, and among the READY entries sharing that maximal priority it
returns the one at the lowest table index (first found in the linear scan);
in particular a READY HIGH-priority task is chosen over READY NORMAL/LOW
tasks. -/
theorem C5_select_next_task_highest_priority_first (tl : List TaskSlot)
    (i0 : Nat) (s0 : TaskSlot) (h0 : tl.get? i0 = some s0)
    (hr : s0.state = .ready) :
    ∃ j sj, select_next_task tl = some j ∧ tl.get? j = some sj ∧
      sj.state = .ready ∧
      (∀ k sk, tl.get? k = some sk → sk.state = .ready →
        sk.priority.toNat ≤ sj.priority.toNat) ∧
      (∀ k sk, tl.get? k = some sk → sk.state = .ready →
        sk.priority.toNat = sj.priority.toNat → j ≤ k) := by
  have hget_lt : ∀ (k : Nat) (sk : TaskSlot), tl.get? k = some sk →
      k < tl.length := by
    intro k sk hk
    by_contra hge
    push_neg at hge
    rw [List.get?_eq_none.mpr hge] at hk
    cases hk
  have hbase : selectInv tl 0 none 0 :=
    ⟨rfl, fun k sk hk => absurd hk (by omega)⟩
  obtain ⟨h2, hinv⟩ := selectFirstPass_inv tl 0 none 0 tl (by simp)
    (fun m => by simp) hbase
  unfold select_next_task
  cases hfp : selectFirstPass tl 0 none 0 with
  | some j =>
    rw [hfp] at hinv
    obtain ⟨hj, hpos, ⟨sj, hsj, hready, hprio⟩, hmax, htie⟩ := hinv
    refine ⟨j, sj, rfl, hsj, hready, ?_, ?_⟩
    · intro k sk hk hr2
      rw [hprio]
      exact hmax k sk (hget_lt k sk hk) hk hr2
    · intro k sk hk hr2 hpe
      rw [hprio] at hpe
      exact htie k sk (hget_lt k sk hk) hk hr2 hpe
  | none =>
    rw [hfp] at hinv
    obtain ⟨-, hall0⟩ := hinv
    have hidle0 : s0.priority = .idle :=
      (priority_toNat_eq_zero s0.priority).mp
        (hall0 i0 s0 (hget_lt i0 s0 h0) h0 hr)
    have hsp := selectSecondPass_spec tl 0 tl (by simp) (fun m => by simp)
    cases hsp2 : selectSecondPass tl 0 with
    | none =>
      rw [hsp2] at hsp
      exact absurd ⟨hr, hidle0⟩ (hsp i0 s0 (Nat.zero_le _) h0)
    | some j =>
      rw [hsp2] at hsp
      obtain ⟨-, sj, hsj, hready, hidle, hfirst⟩ := hsp
      refine ⟨j, sj, rfl, hsj, hready, ?_, ?_⟩
      · intro k sk hk hr2
        have hk0 : sk.priority.toNat = 0 :=
          hall0 k sk (hget_lt k sk hk) hk hr2
        omega
      · intro k sk hk hr2 hpe
        by_contra hlt
        push_neg at hlt
        have hk0 : sk.priority.toNat = 0 :=
          hall0 k sk (hget_lt k sk hk) hk hr2
        exact hfirst k sk (Nat.zero_le _) hlt hk
          ⟨hr2, (priority_toNat_eq_zero sk.priority).mp hk0⟩

/-- A task-table slot that only fixes state and priority, for the C5
witness. -/
def taskSlotW (st : TaskState) (pr : TaskPriority) : TaskSlot :=
  { unusedSlot with state := st, priority := pr }

/-- Witness for C5: a table with READY NORMAL, READY HIGH, READY HIGH and
BLOCKED REALTIME entries. -/
theorem C5_witness :
    ∃ j sj, select_next_task
        [taskSlotW .ready .normal, taskSlotW .ready .high,
         taskSlotW .ready .high, taskSlotW .blocked .realtime] = some j ∧
      [taskSlotW .ready .normal, taskSlotW .ready .high,
         taskSlotW .ready .high, taskSlotW .blocked .realtime].get? j = some sj ∧
      sj.state = .ready ∧
      (∀ k sk, [taskSlotW .ready .normal, taskSlotW .ready .high,
         taskSlotW .ready .high, taskSlotW .blocked .realtime].get? k = some sk →
        sk.state = .ready → sk.priority.toNat ≤ sj.priority.toNat) ∧
      (∀ k sk, [taskSlotW .ready .normal, taskSlotW .ready .high,
         taskSlotW .ready .high, taskSlotW .blocked .realtime].get? k = some sk →
        sk.state = .ready → sk.priority.toNat = sj.priority.toNat → j ≤ k) :=
  C5_select_next_task_highest_priority_first _ 0 (taskSlotW .ready .normal)
    rfl rfl

end Meow
